import Mathlib

/-!
Verification of the receipt-ingestion pipeline of the vision-api-app
repository (Go).  The Go sources are shallowly embedded: pure helpers
become Lean functions on `Nat`/`Int`/`String`; the stateful coordinator
`ProcessReceiptImage` becomes explicit state passing over a repository
interface, with an event trace recording every external call.  Machine
integers (Go `int`) are modelled as `Int`; byte slices as `List Nat`
with entries below 256; `encoding/json` syntax parsing is modelled by an
executable JSON parser over a small JSON value type, and the per-type
`json.Unmarshal` behaviour by explicit decoders.
-/

set_option maxRecDepth 100000

namespace VisionApp

/-! ## Bytes, words and SHA-256
`generateReceiptID` in `receipt_usecase.go` formats the first 16 bytes
of the SHA-256 digest of the image data.  SHA-256 is embedded with `Nat`
words reduced mod 2^32; the round constants are derived, as in the
standard, from the fractional parts of the square and cube roots of the
first primes. -/

def M32 : Nat := 4294967296

def rotr32 (n x : Nat) : Nat := ((x >>> n) ||| (x <<< (32 - n))) % M32

def firstPrimes : List Nat :=
  [2, 3, 5, 7, 11, 13, 17, 19, 23, 29, 31, 37, 41, 43, 47, 53,
   59, 61, 67, 71, 73, 79, 83, 89, 97, 101, 103, 107, 109, 113, 127, 131,
   137, 139, 149, 151, 157, 163, 167, 173, 179, 181, 191, 193, 197, 199, 211, 223,
   227, 229, 233, 239, 241, 251, 257, 263, 269, 271, 277, 281, 283, 293, 307, 311]

/-- Integer square root by binary search over 64 bits. -/
def isqrt (n : Nat) : Nat :=
  (List.range 64).foldl (fun r i =>
    let c := r + (1 <<< (63 - i))
    if c * c ≤ n then c else r) 0

/-- Integer cube root by binary search over 64 bits. -/
def icbrt (n : Nat) : Nat :=
  (List.range 64).foldl (fun r i =>
    let c := r + (1 <<< (63 - i))
    if c * c * c ≤ n then c else r) 0

/-- SHA-256 round constants: first 32 bits of the fractional parts of the
cube roots of the first 64 primes. -/
def sha256K : List Nat := firstPrimes.map (fun p => icbrt (p <<< 96) % M32)

/-- SHA-256 initial hash: first 32 bits of the fractional parts of the
square roots of the first 8 primes. -/
def sha256H0 : List Nat := (firstPrimes.take 8).map (fun p => isqrt (p <<< 64) % M32)

/-- Big-endian byte expansion of `n` over `k` bytes. -/
def beBytes (k n : Nat) : List Nat :=
  (List.range k).map (fun i => (n >>> (8 * (k - 1 - i))) % 256)

/-- SHA-256 message padding: 0x80, zeros to 56 mod 64, 64-bit bit length. -/
def sha256Pad (msg : List Nat) : List Nat :=
  let L := msg.length
  let zeros := (119 - L % 64) % 64
  msg ++ 128 :: List.replicate zeros 0 ++ beBytes 8 (8 * L)

def toBlocks (l : List Nat) : List (List Nat) :=
  (List.range (l.length / 64)).map (fun i => (l.drop (64 * i)).take 64)

/-- Big-endian 32-bit word from four bytes. -/
def word32 (bs : List Nat) : Nat := bs.foldl (fun a b => a * 256 + b) 0

def smallSigma0 (x : Nat) : Nat := rotr32 7 x ^^^ rotr32 18 x ^^^ (x >>> 3)

def smallSigma1 (x : Nat) : Nat := rotr32 17 x ^^^ rotr32 19 x ^^^ (x >>> 10)

def bigSigma0 (x : Nat) : Nat := rotr32 2 x ^^^ rotr32 13 x ^^^ rotr32 22 x

def bigSigma1 (x : Nat) : Nat := rotr32 6 x ^^^ rotr32 11 x ^^^ rotr32 25 x

def chFn (x y z : Nat) : Nat := (x &&& y) ^^^ ((x ^^^ (M32 - 1)) &&& z)

def majFn (x y z : Nat) : Nat := (x &&& y) ^^^ (x &&& z) ^^^ (y &&& z)

/-- The 64-word message schedule of one 64-byte block. -/
def sha256Schedule (block : List Nat) : List Nat :=
  let w16 := (List.range 16).map (fun i => word32 ((block.drop (4 * i)).take 4))
  (List.range 48).foldl (fun w _ =>
    let n := w.length
    let x := (smallSigma1 (w.getD (n - 2) 0) + w.getD (n - 7) 0 +
              smallSigma0 (w.getD (n - 15) 0) + w.getD (n - 16) 0) % M32
    w ++ [x]) w16

/-- One SHA-256 compression round on the eight working variables. -/
def sha256Round (k w : Nat) (st : List Nat) : List Nat :=
  let a := st.getD 0 0
  let b := st.getD 1 0
  let c := st.getD 2 0
  let d := st.getD 3 0
  let e := st.getD 4 0
  let f := st.getD 5 0
  let g := st.getD 6 0
  let hh := st.getD 7 0
  let t1 := (hh + bigSigma1 e + chFn e f g + k + w) % M32
  let t2 := (bigSigma0 a + majFn a b c) % M32
  [(t1 + t2) % M32, a, b, c, (d + t1) % M32, e, f, g]

/-- SHA-256 compression of one block into the running hash. -/
def sha256Compress (hs : List Nat) (block : List Nat) : List Nat :=
  let w := sha256Schedule block
  let st := (List.range 64).foldl (fun st i => sha256Round (sha256K.getD i 0) (w.getD i 0) st) hs
  List.zipWith (fun x y => (x + y) % M32) hs st

/-- SHA-256 digest (32 bytes) of a byte sequence. -/
def sha256 (msg : List Nat) : List Nat :=
  ((toBlocks (sha256Pad msg)).foldl sha256Compress sha256H0).flatMap (beBytes 4)

/-! ## Hex formatting and the receipt id
`generateReceiptID` (receipt_usecase.go:200-209): SHA-256 of the image
data, first 16 digest bytes printed as `%x-%x-%x-%x-%x` over the slices
`[0:4] [4:6] [6:8] [8:10] [10:16]`, i.e. the 8-4-4-4-12 UUID layout. -/

def hexDigitChar (n : Nat) : Char :=
  match n with
  | 0 => '0' | 1 => '1' | 2 => '2' | 3 => '3'
  | 4 => '4' | 5 => '5' | 6 => '6' | 7 => '7'
  | 8 => '8' | 9 => '9' | 10 => 'a' | 11 => 'b'
  | 12 => 'c' | 13 => 'd' | 14 => 'e' | _ => 'f'

/-- Go `%x` on a byte: exactly two lowercase hex digits. -/
def byteHex (b : Nat) : List Char := [hexDigitChar (b / 16), hexDigitChar (b % 16)]

/-- Go `%x` on a byte slice. -/
def bytesHex (bs : List Nat) : List Char := bs.flatMap byteHex

/-- UUID-style 8-4-4-4-12 rendering of 16 digest bytes. -/
def uuidFromBytes (d : List Nat) : String :=
  String.mk (bytesHex (d.take 4) ++ '-' ::
    (bytesHex ((d.drop 4).take 2) ++ '-' ::
      (bytesHex ((d.drop 6).take 2) ++ '-' ::
        (bytesHex ((d.drop 8).take 2) ++ '-' :: bytesHex ((d.drop 10).take 6)))))

/-- `generateReceiptID` from receipt_usecase.go. -/
def generateReceiptID (imageData : List Nat) : String :=
  let h := sha256 imageData
  String.mk (bytesHex (h.take 4) ++ '-' ::
    (bytesHex ((h.drop 4).take 2) ++ '-' ::
      (bytesHex ((h.drop 6).take 2) ++ '-' ::
        (bytesHex ((h.drop 8).take 2) ++ '-' :: bytesHex (((h.drop 10)).take 6)))))

/-- `generateCacheKey` from receipt_usecase.go: `vision:<prefix>:<hex digest>`. -/
def generateCacheKey (pre : String) (data : List Nat) : String :=
  "vision:" ++ pre ++ ":" ++ String.mk (bytesHex (sha256 data))

/-! ## String utilities
Models of the `bytes` / `fmt` standard-library calls used by the Go
code.  Go strings are UTF-8 byte slices; all the needles searched for
(`-`, `.`, "```json") are ASCII, so a character-level model coincides
with Go's byte-level slicing at every split point used here. -/

/-- Whitespace recognised by Go `unicode.IsSpace` (ASCII part). -/
def isGoSpace (c : Char) : Bool :=
  c = ' ' || c = '\t' || c = '\n' || c = '\r' || c = '\x0b' || c = '\x0c'

/-- `bytes.TrimSpace`. -/
def trimChars (l : List Char) : List Char :=
  ((l.dropWhile isGoSpace).reverse.dropWhile isGoSpace).reverse

def trimString (s : String) : String := String.mk (trimChars s.data)

/-- `bytes.Index`: position of the first occurrence of `pat`, if any. -/
def findSub (pat : List Char) : List Char → Option Nat
  | [] => if pat = [] then some 0 else none
  | c :: rest =>
    if pat.isPrefixOf (c :: rest) then some 0
    else (findSub pat rest).map (· + 1)

/-- The "```json" fence cleanup duplicated in `parseReceiptJSON` and
`parseItemCategories`: take the text after the first "```json" and
before the next "```", when present. -/
def cleanFences (l : List Char) : List Char :=
  match findSub ['`', '`', '`', 'j', 's', 'o', 'n'] l with
  | none => l
  | some i =>
    let t := l.drop (i + 7)
    match findSub ['`', '`', '`'] t with
    | none => t
    | some j => t.take j

/-- Decimal digits of `n` (`fmt` `%d` for a non-negative value); fuel
keeps the recursion structural so that it reduces in the kernel. -/
def decDigitsAux : Nat → Nat → List Char
  | 0, _ => []
  | fuel + 1, n =>
    if n < 10 then [hexDigitChar n]
    else decDigitsAux fuel (n / 10) ++ [hexDigitChar (n % 10)]

def decDigits (n : Nat) : List Char := decDigitsAux (n + 1) n

/-- `fmt.Sprintf "%d"` on a non-negative Go int. -/
def natToString (n : Nat) : String := String.mk (decDigits n)

/-- `fmt.Sprintf "%08d"` on a non-negative Go int: zero-pad to at least
eight digits. -/
def zeroPad8 (n : Nat) : String :=
  String.mk (List.replicate (8 - (decDigits n).length) '0' ++ decDigits n)

/-! ## JSON values and syntax
`encoding/json` syntax parsing is modelled by an executable
recursive-descent parser into a small JSON value type.  Two modelling
restrictions (irrelevant to everything proved below): numbers are
integer literals only, and the `\u` string escape is not recognised. -/

inductive Json where
  | null
  | bool (b : Bool)
  | num (n : Int)
  | str (s : String)
  | arr (elems : List Json)
  | obj (fields : List (String × Json))

/-- JSON insignificant whitespace. -/
def isJsonWs (c : Char) : Bool := c = ' ' || c = '\t' || c = '\n' || c = '\r'

def skipWs (l : List Char) : List Char := l.dropWhile isJsonWs

def expectLit (lit : List Char) (l : List Char) : Option (List Char) :=
  if lit.isPrefixOf l then some (l.drop lit.length) else none

def escChar (c : Char) : Option Char :=
  if c = '"' then some '"'
  else if c = '\\' then some '\\'
  else if c = '/' then some '/'
  else if c = 'n' then some '\n'
  else if c = 't' then some '\t'
  else if c = 'r' then some '\r'
  else if c = 'b' then some '\x08'
  else if c = 'f' then some '\x0c'
  else none

/-- String body after the opening quote, handling simple escapes. -/
def pStrChars : List Char → Option (List Char × List Char)
  | [] => none
  | '"' :: rest => some ([], rest)
  | '\\' :: c :: rest => do
    let e ← escChar c
    let (s, r) ← pStrChars rest
    some (e :: s, r)
  | c :: rest => do
    let (s, r) ← pStrChars rest
    some (c :: s, r)

def isDigitChar (c : Char) : Bool := '0' ≤ c && c ≤ '9'

def pDigitsAux : List Char → Nat → Nat × List Char
  | [], acc => (acc, [])
  | c :: rest, acc =>
    if isDigitChar c then pDigitsAux rest (acc * 10 + (c.toNat - 48))
    else (acc, c :: rest)

/-- Integer JSON number (optional minus, one or more digits, no
fraction or exponent). -/
def pNum (l : List Char) : Option (Json × List Char) :=
  let (neg, l1) := match l with
    | '-' :: r => (true, r)
    | _ => (false, l)
  match l1 with
  | [] => none
  | c :: _ =>
    if isDigitChar c then
      let (v, rest) := pDigitsAux l1 0
      match rest with
      | '.' :: _ => none
      | 'e' :: _ => none
      | 'E' :: _ => none
      | _ => some (Json.num (if neg then -(v : Int) else (v : Int)), rest)
    else none

inductive PMode where
  | val
  | elems
  | fields

/-- Recursive-descent JSON parser; a single structural recursion on
fuel, with a mode selecting value / array-tail / object-tail parsing. -/
def pAux : Nat → PMode → List Char → Option (Json × List Char)
  | 0, _, _ => none
  | fuel + 1, PMode.val, cs =>
    match skipWs cs with
    | [] => none
    | c :: rest =>
      if c = 'n' then (expectLit ['u', 'l', 'l'] rest).map (fun r => (Json.null, r))
      else if c = 't' then (expectLit ['r', 'u', 'e'] rest).map (fun r => (Json.bool true, r))
      else if c = 'f' then (expectLit ['a', 'l', 's', 'e'] rest).map (fun r => (Json.bool false, r))
      else if c = '"' then (pStrChars rest).map (fun p => (Json.str (String.mk p.1), p.2))
      else if c = '[' then
        match skipWs rest with
        | ']' :: r2 => some (Json.arr [], r2)
        | r2 => pAux fuel PMode.elems r2
      else if c = '{' then
        match skipWs rest with
        | '}' :: r2 => some (Json.obj [], r2)
        | r2 => pAux fuel PMode.fields r2
      else pNum (c :: rest)
  | fuel + 1, PMode.elems, cs => do
    let (v, r) ← pAux fuel PMode.val cs
    match skipWs r with
    | ',' :: r2 => do
      let (tl, r3) ← pAux fuel PMode.elems r2
      match tl with
      | Json.arr vs => some (Json.arr (v :: vs), r3)
      | _ => none
    | ']' :: r2 => some (Json.arr [v], r2)
    | _ => none
  | fuel + 1, PMode.fields, cs =>
    match skipWs cs with
    | '"' :: r => do
      let (k, r1) ← pStrChars r
      match skipWs r1 with
      | ':' :: r2 => do
        let (v, r3) ← pAux fuel PMode.val r2
        match skipWs r3 with
        | ',' :: r4 => do
          let (tl, r5) ← pAux fuel PMode.fields r4
          match tl with
          | Json.obj fs => some (Json.obj ((String.mk k, v) :: fs), r5)
          | _ => none
        | '}' :: r4 => some (Json.obj [(String.mk k, v)], r4)
        | _ => none
      | _ => none
    | _ => none

/-- `json.Unmarshal`'s syntax phase: parse the whole input as one JSON
value (trailing whitespace only). -/
def jsonParse (s : String) : Option Json :=
  match pAux (2 * s.data.length + 4) PMode.val s.data with
  | some (j, rest) => if skipWs rest = [] then some j else none
  | none => none

/-! ## Go `json.Unmarshal` decoders
One decoder per Go target type used in receipt_usecase.go.  Go rules
modelled: `null` leaves the zero value; unknown object fields are
ignored; a missing field keeps the zero value; a present field of the
wrong type is an error; decoding an object into a map keeps every
key/value pair, later duplicates overwriting earlier ones (`mapGet`
returns the last binding). -/

/-- Object field access: last binding wins, as for Go map decoding. -/
def lookupLast (fs : List (String × Json)) (k : String) : Option Json :=
  (fs.reverse.find? (fun p => p.1 == k)).map (fun p => p.2)

def decodeString : Json → Option String
  | Json.null => some ""
  | Json.str s => some s
  | _ => none

def decodeInt : Json → Option Int
  | Json.null => some 0
  | Json.num n => some n
  | _ => none

/-- Unmarshal into `[]string`. -/
def decodeStringList : Json → Option (List String)
  | Json.null => some []
  | Json.arr xs => xs.mapM decodeString
  | _ => none

/-- Decode a struct field: missing keeps the zero value, present must
decode. -/
def fieldOr {α : Type} (fs : List (String × Json)) (k : String)
    (dec : Json → Option α) (dflt : α) : Option α :=
  match lookupLast fs k with
  | none => some dflt
  | some v => dec v

/-- One decoded entry of the receipt `items` array. -/
structure ItemData where
  name : String
  quantity : Int
  price : Int
deriving DecidableEq

def decodeItemData : Json → Option ItemData
  | Json.null => some { name := "", quantity := 0, price := 0 }
  | Json.obj fs => do
    let n ← fieldOr fs "name" decodeString ""
    let q ← fieldOr fs "quantity" decodeInt 0
    let p ← fieldOr fs "price" decodeInt 0
    some { name := n, quantity := q, price := p }
  | _ => none

def decodeItemList : Json → Option (List ItemData)
  | Json.null => some []
  | Json.arr xs => xs.mapM decodeItemData
  | _ => none

/-- The anonymous struct `json.Unmarshal` target of `parseReceiptJSON`. -/
structure ReceiptData where
  store_name : String
  purchase_date : String
  total_amount : Int
  tax_amount : Int
  payment_method : String
  receipt_number : String
  items : List ItemData
deriving DecidableEq

def decodeReceiptData : Json → Option ReceiptData
  | Json.null => some { store_name := "", purchase_date := "", total_amount := 0,
                        tax_amount := 0, payment_method := "", receipt_number := "", items := [] }
  | Json.obj fs => do
    let sn ← fieldOr fs "store_name" decodeString ""
    let pd ← fieldOr fs "purchase_date" decodeString ""
    let ta ← fieldOr fs "total_amount" decodeInt 0
    let tx ← fieldOr fs "tax_amount" decodeInt 0
    let pm ← fieldOr fs "payment_method" decodeString ""
    let rn ← fieldOr fs "receipt_number" decodeString ""
    let its ← fieldOr fs "items" decodeItemList []
    some { store_name := sn, purchase_date := pd, total_amount := ta,
           tax_amount := tx, payment_method := pm, receipt_number := rn, items := its }
  | _ => none

/-- Element of the classifier's `[]struct{Item,Category string}` target. -/
def decodeItemCatPair : Json → Option (String × String)
  | Json.null => some ("", "")
  | Json.obj fs => do
    let it ← fieldOr fs "item" decodeString ""
    let c ← fieldOr fs "category" decodeString ""
    some (it, c)
  | _ => none

def decodeItemObjects : Json → Option (List (String × String))
  | Json.null => some []
  | Json.arr xs => xs.mapM decodeItemCatPair
  | _ => none

/-- Unmarshal into `map[string]string`, kept as the raw pair list. -/
def decodeStringMap : Json → Option (List (String × String))
  | Json.null => some []
  | Json.obj fs => fs.mapM (fun p => (decodeString p.2).map (fun v => (p.1, v)))
  | _ => none

/-- Go map read: last binding wins. -/
def mapGet (m : List (String × String)) (k : String) : Option String :=
  (m.reverse.find? (fun p => p.1 == k)).map (fun p => p.2)

/-- Go `len` of the decoded map: number of distinct keys. -/
def mapLen (m : List (String × String)) : Nat := (m.map (fun p => p.1)).dedup.length

/-- Unmarshal into `struct{Categories []string}`. -/
def decodeCategoriesObj : Json → Option (List String)
  | Json.null => some []
  | Json.obj fs => fieldOr fs "categories" decodeStringList []
  | _ => none

/-! ## Entities
`internal/modules/household/domain/entity` (`Receipt`, `ReceiptItem`,
`ExpenseEntry`); timestamps are abstracted to `Nat`.  The validity
predicates are from `internal/domain/entity/receipt.go` (`IsValid`). -/

structure ReceiptItem where
  id : String
  receiptID : String
  name : String
  quantity : Int
  price : Int
  category : String
  createdAt : Nat
deriving DecidableEq

structure Receipt where
  id : String
  storeName : String
  purchaseDate : Nat
  totalAmount : Int
  taxAmount : Int
  paymentMethod : String
  receiptNumber : String
  category : String
  createdAt : Nat
  updatedAt : Nat
  items : List ReceiptItem
deriving DecidableEq

structure ExpenseEntry where
  id : String
  receiptID : Option String
  date : Nat
  category : String
  amount : Int
  description : String
  tags : List String
  createdAt : Nat
  updatedAt : Nat
deriving DecidableEq

/-- `ReceiptItem.IsValid`: non-empty name, positive quantity,
non-negative price. -/
def ReceiptItem.IsValid (ri : ReceiptItem) : Prop :=
  ri.name ≠ "" ∧ ri.quantity > 0 ∧ ri.price ≥ 0

instance (ri : ReceiptItem) : Decidable ri.IsValid := by
  unfold ReceiptItem.IsValid; infer_instance

/-- `Receipt.IsValid`: non-empty store name, non-negative total. -/
def Receipt.IsValid (r : Receipt) : Prop := r.storeName ≠ "" ∧ r.totalAmount ≥ 0

/-! ## `parseReceiptJSON` (receipt_usecase.go:99-191) -/

/-- Item id: `fmt.Sprintf("%s-%08d", receiptID[:27], i)`. -/
def itemIDOf (receiptID : String) (i : Nat) : String :=
  String.mk (receiptID.data.take 27) ++ "-" ++ zeroPad8 i

/-- The item loop of `parseReceiptJSON`: the index ranges over every
decoded item, only those with a non-empty name are appended. -/
def materializeItemsFrom (now : Nat) (receiptID : String) : Nat → List ItemData → List ReceiptItem
  | _, [] => []
  | i, it :: rest =>
    if it.name ≠ "" then
      { id := itemIDOf receiptID i, receiptID := receiptID, name := it.name,
        quantity := it.quantity, price := it.price, category := "", createdAt := now } ::
      materializeItemsFrom now receiptID (i + 1) rest
    else materializeItemsFrom now receiptID (i + 1) rest

/-- Everything `parseReceiptJSON` does after a successful unmarshal:
overwrite the reported total with the item sum when positive, parse the
purchase date (falling back to `now`), materialize the items. -/
def buildReceipt (now : Nat) (parseDate : String → Option Nat)
    (rd : ReceiptData) (receiptID : String) : Receipt :=
  let calculatedTotal := (rd.items.map (fun it => it.price * it.quantity)).sum
  let total := if calculatedTotal > 0 then calculatedTotal else rd.total_amount
  let pd0 := if rd.purchase_date ≠ "" then (parseDate rd.purchase_date).getD 0 else 0
  let pd := if pd0 = 0 then now else pd0
  { id := receiptID, storeName := rd.store_name, purchaseDate := pd,
    totalAmount := total, taxAmount := rd.tax_amount,
    paymentMethod := rd.payment_method, receiptNumber := rd.receipt_number,
    category := "", createdAt := now, updatedAt := now,
    items := materializeItemsFrom now receiptID 0 rd.items }

/-- `parseReceiptJSON`: fence cleanup, trim, unmarshal, build; `none`
is the `failed to unmarshal JSON` error. -/
def parseReceiptJSON (now : Nat) (parseDate : String → Option Nat)
    (receiptJSON receiptID : String) : Option Receipt :=
  let clean := trimChars (cleanFences receiptJSON.data)
  match jsonParse (String.mk clean) with
  | none => none
  | some j => (decodeReceiptData j).map (fun rd => buildReceipt now parseDate rd receiptID)

/-! ## `parseItemCategories` (receipt_usecase.go:253-329) -/

/-- Strategy c: probe the decoded map at keys "1".."itemCount". -/
def probeNumbered (m : List (String × String)) (itemCount : Nat) : List String :=
  (List.range itemCount).foldl (fun acc i =>
    match mapGet m (natToString (i + 1)) with
    | some cat => acc ++ [cat]
    | none => acc) []

def tryItemObjects (j : Option Json) : Option (List String) :=
  match j.bind decodeItemObjects with
  | none => none
  | some objs => if objs.length > 0 then some (objs.map (fun p => p.2)) else none

def tryNumbered (j : Option Json) (itemCount : Nat) : Option (List String) :=
  match j.bind decodeStringMap with
  | none => none
  | some m =>
    if (mapGet m "categories").isSome then none
    else if mapLen m > 0 then
      let cats := probeNumbered m itemCount
      if cats.length > 0 then some cats else none
    else none

def tryCategoriesField (j : Option Json) : Option (List String) :=
  match j.bind decodeCategoriesObj with
  | none => none
  | some cats => if cats.length > 0 then some cats else none

/-- `bytes.Split` on a one-byte separator. -/
def splitOnChar (sep : Char) : List Char → List (List Char)
  | [] => [[]]
  | c :: rest =>
    if c = sep then [] :: splitOnChar sep rest
    else
      match splitOnChar sep rest with
      | [] => [[c]]
      | l :: ls => (c :: l) :: ls

/-- Strategy e: newline-split lines of the cleaned text, each trimmed,
with the part after the first '.' taken when one exists before the last
byte. -/
def freeformCategories (clean : List Char) : List String :=
  (splitOnChar '\n' clean).foldl (fun acc line =>
    let lineStr := trimChars line
    if lineStr ≠ [] then
      match findSub ['.'] line with
      | some idx =>
        if idx < line.length - 1 then acc ++ [String.mk (trimChars (line.drop (idx + 1)))]
        else acc ++ [String.mk lineStr]
      | none => acc ++ [String.mk lineStr]
    else acc) []

/-- The five strategies of `parseItemCategories`, in source order, on
the JSON reading `j` of the cleaned response and on the cleaned text
itself; `none` is the `failed to parse categories` error. -/
def parseItemCategoriesCore (j : Option Json) (clean : List Char) (itemCount : Nat) :
    Option (List String) :=
  match j.bind decodeStringList with
  | some cats => some cats
  | none =>
    match tryItemObjects j with
    | some cats => some cats
    | none =>
      match tryNumbered j itemCount with
      | some cats => some cats
      | none =>
        match tryCategoriesField j with
        | some cats => some cats
        | none =>
          let cats := freeformCategories clean
          if cats.length > 0 then some cats else none

def parseItemCategories (response : String) (itemCount : Nat) : Option (List String) :=
  let clean := trimChars (cleanFences response.data)
  parseItemCategoriesCore (jsonParse (String.mk clean)) clean itemCount

/-! ## The coordinator (receipt_usecase.go:34-86, 211-250)
External collaborators are explicit: the AI repository is a pair of
response functions, the receipt repository an operations record over an
abstract store state, the cache an association list.  Every external
call is recorded in an event trace. -/

structure AIResult where
  originalText : String
  correctedText : String
deriving DecidableEq

inductive Event where
  | cacheGet
  | cacheSet
  | aiRecognize
  | aiCategorize
  | repoFindByID
  | repoCreate
deriving DecidableEq

structure Env where
  aiRecognize : List Nat → Except String AIResult
  aiCategorize : String → Except String AIResult
  parseDate : String → Option Nat
  now : Nat

structure RepoOps (σ : Type) where
  findByID : σ → String → Option Receipt
  create : σ → Receipt → Except String σ

/-- The in-memory honest store: `FindByID` is association lookup,
`Create` inserts and rejects a duplicate primary key. -/
def storeFind (s : List (String × Receipt)) (id : String) : Option Receipt :=
  (s.find? (fun p => p.1 == id)).map (fun p => p.2)

def storeOps : RepoOps (List (String × Receipt)) where
  findByID := storeFind
  create := fun s r =>
    match storeFind s r.id with
    | some _ => Except.error "duplicate key"
    | none => Except.ok (s ++ [(r.id, r)])

/-- The duplicate-key race window: a concurrent request has inserted the
row after this request's `FindByID` miss, so `Create` is rejected. -/
def racyOps : RepoOps Unit where
  findByID := fun _ _ => none
  create := fun _ _ => Except.error "Duplicate entry"

def cacheGetFn (c : List (String × String)) (k : String) : Option String :=
  (c.find? (fun p => p.1 == k)).map (fun p => p.2)

def cacheSetFn (c : List (String × String)) (k v : String) : List (String × String) :=
  if c.any (fun p => p.1 == k) then c.map (fun p => if p.1 == k then (k, v) else p)
  else c ++ [(k, v)]

/-- The prompt of `categorizeReceiptItems`. -/
def buildItemsInfo (receipt : Receipt) : String :=
  "店名: " ++ receipt.storeName ++
    "\n以下の商品それぞれのカテゴリーを判定してください（食費、日用品、医療費、娯楽費、交通費、通信費、光熱費、その他）:\n" ++
    String.join (receipt.items.enum.map (fun p => natToString (p.1 + 1) ++ ". " ++ p.2.name ++ "\n"))

/-- The per-item assignment loop of `categorizeReceiptItems`: a parsed
non-empty category when the index is in range, the その他 sentinel
otherwise. -/
def applyCategories (receipt : Receipt) (cats : List String) : Receipt :=
  { receipt with items := receipt.items.enum.map (fun p =>
      { p.2 with category :=
          match cats.get? p.1 with
          | some c => if c ≠ "" then c else "その他"
          | none => "その他" }) }

/-- `categorizeReceiptItems`: no-op on an empty item list; on an AI
error or a parse failure the error is returned and the items are left
untouched (their category stays the zero value "").  The caller ignores
the returned error, so the model returns the receipt and the trace. -/
def categorizeReceiptItems (aiCat : String → Except String AIResult) (receipt : Receipt) :
    Receipt × List Event :=
  if receipt.items.length = 0 then (receipt, [])
  else
    match aiCat (buildItemsInfo receipt) with
    | Except.error _ => (receipt, [Event.aiCategorize])
    | Except.ok res =>
      match parseItemCategories res.correctedText receipt.items.length with
      | none => (receipt, [Event.aiCategorize])
      | some cats => (applyCategories receipt cats, [Event.aiCategorize])

/-- `ProcessReceiptImage` after the raw AI text has been obtained:
derive the id, return the stored receipt on a `FindByID` hit, otherwise
parse, categorize (errors swallowed), and `Create`. -/
def processAfterText {σ : Type} (env : Env) (ops : RepoOps σ)
    (store : σ) (cache : List (String × String)) (evs : List Event)
    (imageData : List Nat) (receiptJSON : String) :
    Except String Receipt × σ × List (String × String) × List Event :=
  let receiptID := generateReceiptID imageData
  let evs := evs ++ [Event.repoFindByID]
  match ops.findByID store receiptID with
  | some existing => (Except.ok existing, store, cache, evs)
  | none =>
    match parseReceiptJSON env.now env.parseDate receiptJSON receiptID with
    | none => (Except.error "failed to parse receipt JSON", store, cache, evs)
    | some receipt =>
      let rc := categorizeReceiptItems env.aiCategorize receipt
      let evs := evs ++ rc.2 ++ [Event.repoCreate]
      match ops.create store rc.1 with
      | Except.error e => (Except.error ("failed to save receipt: " ++ e), store, cache, evs)
      | Except.ok store1 => (Except.ok rc.1, store1, cache, evs)

/-- `ProcessReceiptImage` (receipt_usecase.go:34-86).  `hasCache`
models `cacheRepo != nil`; a cache miss or error and a cached empty
value both leave `receiptJSON` empty, which triggers the AI call. -/
def ProcessReceiptImage {σ : Type} (env : Env) (ops : RepoOps σ) (hasCache : Bool)
    (store : σ) (cache : List (String × String)) (imageData : List Nat) :
    Except String Receipt × σ × List (String × String) × List Event :=
  let cacheKey := generateCacheKey "receipt" imageData
  let cached : Option String := if hasCache then cacheGetFn cache cacheKey else none
  let evs0 : List Event := if hasCache then [Event.cacheGet] else []
  let receiptJSON0 : String :=
    match cached with
    | some v => if v.length > 0 then v else ""
    | none => ""
  if receiptJSON0 = "" then
    match env.aiRecognize imageData with
    | Except.error e =>
      (Except.error ("failed to recognize receipt: " ++ e), store, cache, evs0 ++ [Event.aiRecognize])
    | Except.ok res =>
      let cache1 := if hasCache then cacheSetFn cache cacheKey res.correctedText else cache
      let evs1 := evs0 ++ [Event.aiRecognize] ++ (if hasCache then [Event.cacheSet] else [])
      processAfterText env ops store cache1 evs1 imageData res.correctedText
  else
    processAfterText env ops store cache evs0 imageData receiptJSON0

/-- `AICorrectionUseCase.RecognizeReceipt` (vision module): rejects an
empty image before the AI call. -/
def RecognizeReceiptUC (env : Env) (imageData : List Nat) : Except String AIResult × List Event :=
  if imageData.length = 0 then (Except.error "image data is empty", [])
  else
    match env.aiRecognize imageData with
    | Except.error e => (Except.error ("receipt recognition failed: " ++ e), [Event.aiRecognize])
    | Except.ok res => (Except.ok res, [Event.aiRecognize])

/-! ## `GetCategorySummary` (household usecase)
The repository is missing from the sources only as far as `FindAll`
pagination goes; with limit 0 the Bun repository returns the full set,
so the model takes the stored receipts and expense entries directly. -/

structure CategorySummary where
  category : String
  count : Int
  total : Int
deriving DecidableEq

/-- Create-if-absent then increment, as the Go map bucket update. -/
def bumpSummary (m : List CategorySummary) (cat : String) (amount : Int) : List CategorySummary :=
  if m.any (fun s => s.category == cat) then
    m.map (fun s => if s.category == cat then
      { s with count := s.count + 1, total := s.total + amount } else s)
  else m ++ [{ category := cat, count := 1, total := amount }]

/-- `GetCategorySummary`: bucket every line item of every receipt
(empty category replaced by その他, amount `price × quantity`), then
every expense entry with a non-empty category (amount `amount`), into
the same map.  Output order is Go map iteration order, i.e.
unspecified; the model returns insertion order. -/
def GetCategorySummary (receipts : List Receipt) (expenses : List ExpenseEntry) :
    List CategorySummary :=
  let m := receipts.foldl (fun m r =>
    r.items.foldl (fun m it =>
      let category := if it.category = "" then "その他" else it.category
      bumpSummary m category (it.price * it.quantity)) m) []
  expenses.foldl (fun m e =>
    if e.category = "" then m else bumpSummary m e.category e.amount) m

def summaryGet (m : List CategorySummary) (cat : String) : Option CategorySummary :=
  m.find? (fun s => s.category == cat)


/-! ## Spec-side encodings, decidability, and concrete fixtures
Encodings used to state the parser-shape and aggregation claims, plus the
concrete environments and expected values used by the evaluation theorems:
`envA` recognizes `jsonTextA` and has a failing classifier; `envB`
recognizes a response with an out-of-range item; `receiptA`/`receiptB`
are the receipts the pipeline produces for them. -/

deriving instance DecidableEq for Except

def hexChars : List Char :=
  ['0', '1', '2', '3', '4', '5', '6', '7', '8', '9'] ++ ['a', 'b', 'c', 'd', 'e', 'f']

/-- Spec-side item constructor for the enum/filter/map characterization. -/
def itemOfData (now : Nat) (receiptID : String) (p : Nat × ItemData) : ReceiptItem :=
  { id := itemIDOf receiptID p.1, receiptID := receiptID, name := p.2.name,
    quantity := p.2.quantity, price := p.2.price, category := "", createdAt := now }

def digitChars : List Char := ['0','1','2','3','4','5','6','7','8','9']

/-- Category under which a line item is bucketed. -/
def itemCat (it : ReceiptItem) : String := if it.category = "" then "その他" else it.category

/-- The in-place update of one summary bucket. -/
def updEntry (cat : String) (amt : Int) (s : CategorySummary) : CategorySummary :=
  if s.category == cat then { s with count := s.count + 1, total := s.total + amt } else s

/-- Shape b encoding: one `{item, category}` object per pair. -/
def pairObj (p : String × String) : Json :=
  Json.obj [("item", Json.str p.1), ("category", Json.str p.2)]

/-- Shape c encoding: an object with one string field per map entry. -/
def strMapObj (m : List (String × String)) : Json :=
  Json.obj (m.map (fun p => (p.1, Json.str p.2)))

/-- Shape e encoding: the line "`n`. `c`". -/
def numberedLine (n : Nat) (c : String) : List Char := decDigits n ++ '.' :: ' ' :: c.data

/-- Shape e encoding: newline-joined numbered lines starting at `k`. -/
def numberedLinesFrom : Nat → List String → List Char
  | _, [] => []
  | k, c :: rest =>
    if rest.isEmpty then numberedLine k c
    else numberedLine k c ++ '\n' :: numberedLinesFrom (k + 1) rest

/-- What one split line contributes to the freeform category list. -/
def lineTokens (line : List Char) : List String :=
  let lineStr := trimChars line
  if lineStr ≠ [] then
    match findSub ['.'] line with
    | some idx =>
      if idx < line.length - 1 then [String.mk (trimChars (line.drop (idx + 1)))]
      else [String.mk lineStr]
    | none => [String.mk lineStr]
  else []

deriving instance DecidableEq for Except

def pdNone : String → Option Nat := fun _ => none

def jsonTextA : String :=
  "\x7b\"store_name\":\"Test Store\",\"total_amount\":2000,\"items\":[\x7b\"name\":\"Item1\",\"quantity\":1,\"price\":500\x7d,\x7b\"name\":\"Item2\",\"quantity\":2,\"price\":250\x7d]\x7d"

def envA : Env where
  aiRecognize := fun _ => Except.ok { originalText := "", correctedText := jsonTextA }
  aiCategorize := fun _ => Except.error "AI error"
  parseDate := fun _ => none
  now := 11

def jsonTextB : String :=
  "\x7b\"store_name\":\"Test Store\",\"total_amount\":300,\"items\":[\x7b\"name\":\"Free item\",\"quantity\":0,\"price\":-5\x7d,\x7b\"name\":\"Item2\",\"quantity\":1,\"price\":300\x7d]\x7d"

def envB : Env where
  aiRecognize := fun _ => Except.ok { originalText := "", correctedText := jsonTextB }
  aiCategorize := fun _ => Except.error "AI error"
  parseDate := fun _ => none
  now := 11

def ridA : String := "039058c6-f2c0-cb49-2c53-3b0a4d14ef77"

def cacheKeyA : String :=
  "vision:receipt:039058c6f2c0cb492c533b0a4d14ef77cc0f78abccced5287d84a1a2011cfb81"

def receiptA : Receipt where
  id := ridA
  storeName := "Test Store"
  purchaseDate := 11
  totalAmount := 1000
  taxAmount := 0
  paymentMethod := ""
  receiptNumber := ""
  category := ""
  createdAt := 11
  updatedAt := 11
  items := [
    { id := "039058c6-f2c0-cb49-2c53-3b0-00000000", receiptID := ridA, name := "Item1",
      quantity := 1, price := 500, category := "", createdAt := 11 },
    { id := "039058c6-f2c0-cb49-2c53-3b0-00000001", receiptID := ridA, name := "Item2",
      quantity := 2, price := 250, category := "", createdAt := 11 }]

def receiptB : Receipt where
  id := ridA
  storeName := "Test Store"
  purchaseDate := 11
  totalAmount := 300
  taxAmount := 0
  paymentMethod := ""
  receiptNumber := ""
  category := ""
  createdAt := 11
  updatedAt := 11
  items := [
    { id := "039058c6-f2c0-cb49-2c53-3b0-00000000", receiptID := ridA, name := "Free item",
      quantity := 0, price := -5, category := "", createdAt := 11 },
    { id := "039058c6-f2c0-cb49-2c53-3b0-00000001", receiptID := ridA, name := "Item2",
      quantity := 1, price := 300, category := "", createdAt := 11 }]

def storeA : List (String × Receipt) := [(ridA, receiptA)]

def cacheA : List (String × String) := [(cacheKeyA, jsonTextA)]

def cacheB : List (String × String) := [(cacheKeyA, jsonTextB)]

def evsFullA : List Event :=
  [Event.cacheGet, Event.aiRecognize, Event.cacheSet, Event.repoFindByID,
   Event.aiCategorize, Event.repoCreate]

def rdA : ReceiptData where
  store_name := "Test Store"
  purchase_date := ""
  total_amount := 2000
  tax_amount := 0
  payment_method := ""
  receipt_number := ""
  items := [{ name := "Item1", quantity := 1, price := 500 },
            { name := "Item2", quantity := 2, price := 250 }]

def totalCounterJSON : String :=
  "\x7b\"store_name\":\"S\",\"total_amount\":999,\"items\":[\x7b\"name\":\"\",\"quantity\":1,\"price\":100\x7d,\x7b\"name\":\"a\",\"quantity\":1,\"price\":50\x7d]\x7d"

def receiptC2 : Receipt where
  id := ridA
  storeName := "S"
  purchaseDate := 0
  totalAmount := 150
  taxAmount := 0
  paymentMethod := ""
  receiptNumber := ""
  category := ""
  createdAt := 0
  updatedAt := 0
  items := [{ id := "039058c6-f2c0-cb49-2c53-3b0-00000001", receiptID := ridA, name := "a",
              quantity := 1, price := 50, category := "", createdAt := 0 }]

def rFood : Receipt where
  id := "r1"
  storeName := "s1"
  purchaseDate := 0
  totalAmount := 500
  taxAmount := 0
  paymentMethod := ""
  receiptNumber := ""
  category := ""
  createdAt := 0
  updatedAt := 0
  items := [
    { id := "i1", receiptID := "r1", name := "a", quantity := 1, price := 200,
      category := "food", createdAt := 0 },
    { id := "i2", receiptID := "r1", name := "b", quantity := 2, price := 150,
      category := "food", createdAt := 0 }]

def rGoods : Receipt where
  id := "r2"
  storeName := "s2"
  purchaseDate := 0
  totalAmount := 500
  taxAmount := 0
  paymentMethod := ""
  receiptNumber := ""
  category := ""
  createdAt := 0
  updatedAt := 0
  items := [
    { id := "i3", receiptID := "r2", name := "c", quantity := 1, price := 500,
      category := "goods", createdAt := 0 }]

def expTransport : ExpenseEntry where
  id := "e1"
  receiptID := none
  date := 0
  category := "transport"
  amount := 500
  description := ""
  tags := []
  createdAt := 0
  updatedAt := 0


/-! ## Lemmas -/

theorem hexDigitChar_mem (n : Nat) : hexDigitChar n ∈ hexChars := by
  unfold hexDigitChar
  split <;> decide

theorem byteHex_length (b : Nat) : (byteHex b).length = 2 := rfl

theorem byteHex_mem (b : Nat) : ∀ c ∈ byteHex b, c ∈ hexChars := by
  intro c hc
  simp only [byteHex, List.mem_cons, List.mem_singleton] at hc
  rcases hc with h | h | h
  · exact h ▸ hexDigitChar_mem _
  · exact h ▸ hexDigitChar_mem _
  · cases h

theorem bytesHex_length (bs : List Nat) : (bytesHex bs).length = 2 * bs.length := by
  induction bs with
  | nil => rfl
  | cons b rest ih =>
    simp only [bytesHex, List.flatMap_cons, List.length_append, List.length_cons] at ih ⊢
    rw [ih, byteHex_length]
    ring

theorem bytesHex_mem (bs : List Nat) : ∀ c ∈ bytesHex bs, c ∈ hexChars := by
  intro c hc
  simp only [bytesHex, List.mem_flatMap] at hc
  obtain ⟨b, _, hb⟩ := hc
  exact byteHex_mem b c hb

theorem sha256Round_length (k w : Nat) (st : List Nat) : (sha256Round k w st).length = 8 := rfl

theorem foldl_round_length (l : List Nat) (w : List Nat) (st : List Nat) (h : st.length = 8) :
    ((l).foldl (fun st i => sha256Round (sha256K.getD i 0) (w.getD i 0) st) st).length = 8 := by
  induction l generalizing st with
  | nil => exact h
  | cons x rest ih => exact ih _ (sha256Round_length _ _ _)

theorem sha256Compress_length (hs block : List Nat) (h : hs.length = 8) :
    (sha256Compress hs block).length = 8 := by
  unfold sha256Compress
  rw [List.length_zipWith, foldl_round_length _ _ _ h, h]
  rfl

theorem foldl_compress_length (blocks : List (List Nat)) (hs : List Nat) (h : hs.length = 8) :
    (blocks.foldl sha256Compress hs).length = 8 := by
  induction blocks generalizing hs with
  | nil => exact h
  | cons b rest ih => exact ih _ (sha256Compress_length _ _ h)

theorem sha256H0_length : sha256H0.length = 8 := by decide

theorem flatMap_beBytes_length (l : List Nat) : (l.flatMap (beBytes 4)).length = 4 * l.length := by
  induction l with
  | nil => rfl
  | cons x rest ih =>
    simp only [List.flatMap_cons, List.length_append, ih, beBytes, List.length_map,
      List.length_range, List.length_cons]
    omega

theorem sha256_length (msg : List Nat) : (sha256 msg).length = 32 := by
  unfold sha256
  rw [flatMap_beBytes_length, foldl_compress_length _ _ sha256H0_length]

theorem sha256_bytes_lt (msg : List Nat) : ∀ x ∈ sha256 msg, x < 256 := by
  intro x hx
  unfold sha256 at hx
  rw [List.mem_flatMap] at hx
  obtain ⟨h, _, hh⟩ := hx
  simp only [beBytes, List.mem_map] at hh
  obtain ⟨i, _, hi⟩ := hh
  omega

theorem materializeItemsFrom_eq (now : Nat) (rid : String) (items : List ItemData) (i0 : Nat) :
    materializeItemsFrom now rid i0 items =
      ((List.enumFrom i0 items).filter (fun p => p.2.name ≠ "")).map (itemOfData now rid) := by
  induction items generalizing i0 with
  | nil => rfl
  | cons it rest ih =>
    simp only [materializeItemsFrom, List.enumFrom, List.filter]
    by_cases h : it.name = ""
    · simp [h, ih]
    · simp [h, ih, itemOfData]

theorem materializeItemsFrom_fields (now : Nat) (rid : String) (items : List ItemData) (i0 : Nat) :
    (materializeItemsFrom now rid i0 items).map (fun it => (it.name, it.quantity, it.price)) =
      (items.filter (fun it => it.name ≠ "")).map (fun it => (it.name, it.quantity, it.price)) := by
  induction items generalizing i0 with
  | nil => rfl
  | cons it rest ih =>
    simp only [materializeItemsFrom, List.filter]
    by_cases h : it.name = ""
    · simp [h, ih]
    · simp [h, ih]

theorem hexDigitChar_digit (n : Nat) (h : n < 10) : hexDigitChar n ∈ digitChars := by
  interval_cases n <;> decide

theorem decDigitsAux_len : ∀ fuel k n, n < fuel → n < 10 ^ k → 0 < k →
    (decDigitsAux fuel n).length ≤ k := by
  intro fuel
  induction fuel with
  | zero => intro k n h; omega
  | succ fuel ih =>
    intro k n hfuel hk hk0
    by_cases h : n < 10
    · simp [decDigitsAux, h]
      omega
    · have h10 : 10 ≤ n := by omega
      have hk2 : 2 ≤ k := by
        by_contra hcon
        have : k = 1 := by omega
        subst this
        simp at hk
        omega
      have hdiv : n / 10 < 10 ^ (k - 1) := by
        have hpow : 10 ^ (k - 1) * 10 = 10 ^ k := by
          rw [← pow_succ]
          congr 1
          omega
        rw [Nat.div_lt_iff_lt_mul (by norm_num)]
        omega
      have hfuel2 : n / 10 < fuel := by
        have : n / 10 < n := Nat.div_lt_self (by omega) (by norm_num)
        omega
      have := ih (k - 1) (n / 10) hfuel2 hdiv (by omega)
      simp [decDigitsAux, h, List.length_append]
      omega

theorem decDigits_len (n k : Nat) (hk : n < 10 ^ k) (hk0 : 0 < k) : (decDigits n).length ≤ k :=
  decDigitsAux_len (n + 1) k n (by omega) hk hk0

theorem decDigitsAux_digits : ∀ fuel n c, c ∈ decDigitsAux fuel n → c ∈ digitChars := by
  intro fuel
  induction fuel with
  | zero => intro n c h; cases h
  | succ fuel ih =>
    intro n c h
    by_cases hn : n < 10
    · simp [decDigitsAux, hn] at h
      exact h ▸ hexDigitChar_digit n hn
    · simp only [decDigitsAux, hn, if_false, List.mem_append, List.mem_singleton] at h
      rcases h with h | h
      · exact ih _ _ h
      · exact h ▸ hexDigitChar_digit _ (Nat.mod_lt _ (by norm_num))

theorem decDigits_ne_nil (n : Nat) : decDigits n ≠ [] := by
  unfold decDigits decDigitsAux
  by_cases h : n < 10 <;> simp [h]

theorem zeroPad8_length (n : Nat) : (zeroPad8 n).length = max 8 (decDigits n).length := by
  show (List.replicate (8 - (decDigits n).length) '0' ++ decDigits n).length = _
  rw [List.length_append, List.length_replicate]
  omega

theorem itemIDOf_length (rid : String) (i : Nat) (h : rid.length = 36) :
    (i < 10 ^ 8 → (itemIDOf rid i).length = 36) ∧ (i < 2 ^ 63 → (itemIDOf rid i).length ≤ 50) := by
  have hdata : rid.data.length = 36 := h
  have hlen : (itemIDOf rid i).length = 27 + 1 + (zeroPad8 i).length := by
    show (String.mk (rid.data.take 27) ++ "-" ++ zeroPad8 i).length = _
    rw [String.length_append, String.length_append]
    have : (String.mk (rid.data.take 27)).length = 27 := by
      show (rid.data.take 27).length = 27
      rw [List.length_take, hdata]
      norm_num
    rw [this]
    rfl
  constructor
  · intro hi
    have h8 : (decDigits i).length ≤ 8 := decDigits_len i 8 hi (by norm_num)
    rw [hlen, zeroPad8_length]
    omega
  · intro hi
    have h19 : (decDigits i).length ≤ 19 :=
      decDigits_len i 19 (lt_of_lt_of_le hi (by norm_num)) (by norm_num)
    rw [hlen, zeroPad8_length]
    omega

theorem buildReceipt_total (now : Nat) (pd : String → Option Nat) (rd : ReceiptData) (rid : String) :
    ((rd.items.map (fun it => it.price * it.quantity)).sum > 0 →
      (buildReceipt now pd rd rid).totalAmount = (rd.items.map (fun it => it.price * it.quantity)).sum) ∧
    ((rd.items.map (fun it => it.price * it.quantity)).sum ≤ 0 →
      (buildReceipt now pd rd rid).totalAmount = rd.total_amount) := by
  constructor
  · intro h
    simp [buildReceipt, h]
  · intro h
    have hno : ¬((rd.items.map (fun it => it.price * it.quantity)).sum > 0) := by omega
    simp [buildReceipt, hno]

theorem parseReceiptJSON_some (now : Nat) (pd : String → Option Nat) (s rid : String)
    (j : Json) (rd : ReceiptData)
    (hj : jsonParse (String.mk (trimChars (cleanFences s.data))) = some j)
    (hrd : decodeReceiptData j = some rd) :
    parseReceiptJSON now pd s rid = some (buildReceipt now pd rd rid) := by
  unfold parseReceiptJSON
  simp only [hj, hrd, Option.map_some']

theorem filter_all_names (items : List ItemData) (h : ∀ it ∈ items, it.name ≠ "") :
    items.filter (fun it => it.name ≠ "") = items := by
  rw [List.filter_eq_self]
  intro a ha
  simpa using h a ha

theorem buildReceipt_items_sum (now : Nat) (pd : String → Option Nat) (rd : ReceiptData) (rid : String)
    (h : ∀ it ∈ rd.items, it.name ≠ "") :
    ((buildReceipt now pd rd rid).items.map (fun it => it.price * it.quantity)).sum =
      (rd.items.map (fun it => it.price * it.quantity)).sum := by
  show ((materializeItemsFrom now rid 0 rd.items).map (fun it => it.price * it.quantity)).sum = _
  have hmap : (materializeItemsFrom now rid 0 rd.items).map (fun it => it.price * it.quantity) =
      rd.items.map (fun it => it.price * it.quantity) := by
    have hf := materializeItemsFrom_fields now rid rd.items 0
    rw [filter_all_names rd.items h] at hf
    have h2 := congrArg (List.map (fun p : String × Int × Int => p.2.2 * p.2.1)) hf
    simpa [List.map_map, Function.comp] using h2
  rw [hmap]

theorem bumpSummary_eq (m : List CategorySummary) (cat : String) (amt : Int) :
    bumpSummary m cat amt =
      if m.any (fun s => s.category == cat) then m.map (updEntry cat amt)
      else m ++ [{ category := cat, count := 1, total := amt }] := rfl

theorem updEntry_category (cat : String) (amt : Int) (s : CategorySummary) :
    (updEntry cat amt s).category = s.category := by
  unfold updEntry
  by_cases h : (s.category == cat) = true <;> simp [h]

theorem find?_map_upd (cat : String) (amt : Int) (c : String) (m : List CategorySummary) :
    (m.map (updEntry cat amt)).find? (fun s => s.category == c) =
      (m.find? (fun s => s.category == c)).map (updEntry cat amt) := by
  induction m with
  | nil => rfl
  | cons s m ih =>
    simp only [List.map_cons, List.find?]
    have h2 : ((updEntry cat amt s).category == c) = (s.category == c) := by
      rw [updEntry_category]
    rw [h2]
    cases hp : (s.category == c)
    · exact ih
    · rfl

theorem summaryGet_nil (c : String) : summaryGet [] c = none := rfl

theorem summaryGet_bump_self (m : List CategorySummary) (cat : String) (amt : Int) :
    summaryGet (bumpSummary m cat amt) cat =
      match summaryGet m cat with
      | none => some { category := cat, count := 1, total := amt }
      | some s => some { s with count := s.count + 1, total := s.total + amt } := by
  rw [bumpSummary_eq]
  by_cases hany : (m.any (fun s => s.category == cat)) = true
  · rw [if_pos hany]
    unfold summaryGet
    rw [find?_map_upd]
    cases hfind : m.find? (fun s => s.category == cat) with
    | none =>
      exfalso
      rw [List.any_eq_true] at hany
      obtain ⟨s, hs, hp⟩ := hany
      have := List.find?_eq_none.mp hfind s hs
      simp_all
    | some s =>
      have hsc : (s.category == cat) = true := by
        have := List.find?_some hfind
        simpa using this
      simp [updEntry, hsc]
  · rw [if_neg hany]
    have hmn : summaryGet m cat = none := by
      unfold summaryGet
      rw [List.find?_eq_none]
      intro s hs hp
      rw [List.any_eq_true] at hany
      exact hany ⟨s, hs, hp⟩
    unfold summaryGet at *
    rw [List.find?_append, hmn]
    simp [List.find?]

theorem summaryGet_bump_other (m : List CategorySummary) (cat : String) (amt : Int) (c : String)
    (hne : cat ≠ c) :
    summaryGet (bumpSummary m cat amt) c = summaryGet m c := by
  rw [bumpSummary_eq]
  by_cases hany : (m.any (fun s => s.category == cat)) = true
  · rw [if_pos hany]
    unfold summaryGet
    rw [find?_map_upd]
    cases hfind : m.find? (fun s => s.category == c) with
    | none => rfl
    | some s =>
      have hsc : (s.category == c) = true := by
        have := List.find?_some hfind
        simpa using this
      have hscat : (s.category == cat) = false := by
        have h2 : s.category = c := by simpa using hsc
        rw [h2]
        exact beq_eq_false_iff_ne.mpr (fun h => hne h.symm)
      simp [updEntry, hscat]
  · rw [if_neg hany]
    unfold summaryGet
    rw [List.find?_append]
    cases hfind : m.find? (fun s => s.category == c) with
    | some s => rfl
    | none =>
      simp only [Option.none_or, List.find?]
      have : (({ category := cat, count := 1, total := amt } : CategorySummary).category == c) = false := by
        simpa using hne
      rw [this]

theorem foldl_items_get (its : List ReceiptItem) (m : List CategorySummary) (c : String) :
    summaryGet (its.foldl (fun m it =>
        bumpSummary m (itemCat it) (it.price * it.quantity)) m) c =
      match summaryGet m c with
      | none =>
        if (its.filter (fun it => itemCat it == c)).length = 0 then none
        else some (CategorySummary.mk c ((its.filter (fun it => itemCat it == c)).length : Int)
          ((its.filter (fun it => itemCat it == c)).map (fun it => it.price * it.quantity)).sum)
      | some s => some (CategorySummary.mk s.category
          (s.count + ((its.filter (fun it => itemCat it == c)).length : Int))
          (s.total + ((its.filter (fun it => itemCat it == c)).map (fun it => it.price * it.quantity)).sum)) := by
  induction its generalizing m with
  | nil =>
    cases hm : summaryGet m c with
    | none => simp [hm]
    | some s => simp [hm]
  | cons it its ih =>
    simp only [List.foldl_cons]
    by_cases hc : (itemCat it == c) = true
    · have hceq : itemCat it = c := by simpa using hc
      have hfil : List.filter (fun x => itemCat x == c) (it :: its) =
          it :: List.filter (fun x => itemCat x == c) its := List.filter_cons_of_pos hc
      rw [ih, hceq, summaryGet_bump_self, hfil]
      cases hm : summaryGet m c with
      | none =>
        simp only [List.length_cons, List.map_cons, List.sum_cons]
        rw [if_neg (by omega : ¬((its.filter (fun x => itemCat x == c)).length + 1 = 0))]
        refine congrArg some ?_
        rw [CategorySummary.mk.injEq]
        refine ⟨rfl, by push_cast; ring, by ring⟩
      | some s =>
        simp only [List.length_cons, List.map_cons, List.sum_cons]
        refine congrArg some ?_
        rw [CategorySummary.mk.injEq]
        refine ⟨rfl, by push_cast; ring, by ring⟩
    · have hcne : itemCat it ≠ c := by simpa using hc
      have hfil : List.filter (fun x => itemCat x == c) (it :: its) =
          List.filter (fun x => itemCat x == c) its := List.filter_cons_of_neg (by simpa using hc)
      rw [ih, summaryGet_bump_other _ _ _ _ hcne, hfil]

theorem foldl_receipts_flatten (rs : List Receipt) (m : List CategorySummary) :
    rs.foldl (fun m r => r.items.foldl (fun m it =>
        bumpSummary m (itemCat it) (it.price * it.quantity)) m) m =
      (rs.flatMap (fun r => r.items)).foldl (fun m it =>
        bumpSummary m (itemCat it) (it.price * it.quantity)) m := by
  induction rs generalizing m with
  | nil => rfl
  | cons r rs ih => simp [List.foldl_append, ih]

theorem foldl_exp_get (es : List ExpenseEntry) (m : List CategorySummary) (c : String) :
    summaryGet (es.foldl (fun m e =>
        if e.category = "" then m else bumpSummary m e.category e.amount) m) c =
      match summaryGet m c with
      | none =>
        if (es.filter (fun e => e.category == c && !(e.category == ""))).length = 0 then none
        else some (CategorySummary.mk c
          ((es.filter (fun e => e.category == c && !(e.category == ""))).length : Int)
          ((es.filter (fun e => e.category == c && !(e.category == ""))).map (fun e => e.amount)).sum)
      | some s => some (CategorySummary.mk s.category
          (s.count + ((es.filter (fun e => e.category == c && !(e.category == ""))).length : Int))
          (s.total + ((es.filter (fun e => e.category == c && !(e.category == ""))).map (fun e => e.amount)).sum)) := by
  induction es generalizing m with
  | nil =>
    cases hm : summaryGet m c with
    | none => simp [hm]
    | some s => simp [hm]
  | cons e es ih =>
    simp only [List.foldl_cons]
    by_cases hemp : e.category = ""
    · have hfil : List.filter (fun x => x.category == c && !(x.category == "")) (e :: es) =
          List.filter (fun x => x.category == c && !(x.category == "")) es := by
        refine List.filter_cons_of_neg ?_
        simp [hemp]
      rw [if_pos hemp, ih, hfil]
    · rw [if_neg hemp]
      by_cases hc : (e.category == c) = true
      · have hceq : e.category = c := by simpa using hc
        have hfil : List.filter (fun x => x.category == c && !(x.category == "")) (e :: es) =
            e :: List.filter (fun x => x.category == c && !(x.category == "")) es := by
          refine List.filter_cons_of_pos ?_
          simp [hc, hemp]
        rw [ih, hceq, summaryGet_bump_self, hfil]
        cases hm : summaryGet m c with
        | none =>
          simp only [List.length_cons, List.map_cons, List.sum_cons]
          rw [if_neg (by omega :
            ¬((es.filter (fun x => x.category == c && !(x.category == ""))).length + 1 = 0))]
          refine congrArg some ?_
          rw [CategorySummary.mk.injEq]
          refine ⟨rfl, by push_cast; ring, by ring⟩
        | some s =>
          simp only [List.length_cons, List.map_cons, List.sum_cons]
          refine congrArg some ?_
          rw [CategorySummary.mk.injEq]
          refine ⟨rfl, by push_cast; ring, by ring⟩
      · have hcne : e.category ≠ c := by simpa using hc
        have hfil : List.filter (fun x => x.category == c && !(x.category == "")) (e :: es) =
            List.filter (fun x => x.category == c && !(x.category == "")) es := by
          refine List.filter_cons_of_neg ?_
          simp [hc]
        rw [ih, summaryGet_bump_other _ _ _ _ hcne, hfil]

theorem category_summary_pointwise (receipts : List Receipt) (expenses : List ExpenseEntry) (c : String) :
    summaryGet (GetCategorySummary receipts expenses) c =
      (if ((receipts.flatMap (fun r => r.items)).filter (fun it => itemCat it == c)).length +
          (expenses.filter (fun e => e.category == c && !(e.category == ""))).length = 0 then none
       else some (CategorySummary.mk c
        ((((receipts.flatMap (fun r => r.items)).filter (fun it => itemCat it == c)).length : Int) +
          ((expenses.filter (fun e => e.category == c && !(e.category == ""))).length : Int))
        ((((receipts.flatMap (fun r => r.items)).filter (fun it => itemCat it == c)).map
            (fun it => it.price * it.quantity)).sum +
          ((expenses.filter (fun e => e.category == c && !(e.category == ""))).map
            (fun e => e.amount)).sum))) := by
  have h1 : GetCategorySummary receipts expenses =
      expenses.foldl (fun m e => if e.category = "" then m else bumpSummary m e.category e.amount)
        (receipts.foldl (fun m r => r.items.foldl (fun m it =>
          bumpSummary m (itemCat it) (it.price * it.quantity)) m) []) := rfl
  rw [h1, foldl_receipts_flatten, foldl_exp_get, foldl_items_get, summaryGet_nil]
  by_cases hi : ((receipts.flatMap (fun r => r.items)).filter (fun it => itemCat it == c)).length = 0
  · have hnil : (receipts.flatMap (fun r => r.items)).filter (fun it => itemCat it == c) = [] :=
      List.length_eq_zero.mp hi
    rw [if_pos hi]
    cases he : (expenses.filter (fun e => e.category == c && !(e.category == ""))).length with
    | zero =>
      have hexp : expenses.filter (fun e => e.category == c && !(e.category == "")) = [] :=
        List.length_eq_zero.mp he
      simp [hexp, hi]
    | succ n =>
      have h2 : ¬((expenses.filter (fun e => e.category == c && !(e.category == ""))).length = 0) := by
        omega
      have h3 : ¬(((receipts.flatMap (fun r => r.items)).filter (fun it => itemCat it == c)).length +
          (expenses.filter (fun e => e.category == c && !(e.category == ""))).length = 0) := by
        omega
      simp only [if_neg h2, if_neg h3]
      refine congrArg some ?_
      rw [CategorySummary.mk.injEq]
      refine ⟨rfl, by rw [hi]; push_cast; ring, by rw [hnil]; simp⟩
  · have h3 : ¬(((receipts.flatMap (fun r => r.items)).filter (fun it => itemCat it == c)).length +
        (expenses.filter (fun e => e.category == c && !(e.category == ""))).length = 0) := by
      omega
    rw [if_neg hi, if_neg h3]

theorem decodeStringList_strs (cats : List String) :
    decodeStringList (Json.arr (cats.map Json.str)) = some cats := by
  show (cats.map Json.str).mapM decodeString = some cats
  induction cats with
  | nil => rfl
  | cons c cats ih =>
    simp only [List.map_cons, List.mapM_cons, ih, decodeString]
    rfl

theorem decodeItemCatPair_pairObj (p : String × String) :
    decodeItemCatPair (pairObj p) = some p := rfl

theorem decodeItemObjects_pairs (pairs : List (String × String)) :
    decodeItemObjects (Json.arr (pairs.map pairObj)) = some pairs := by
  show (pairs.map pairObj).mapM decodeItemCatPair = some pairs
  induction pairs with
  | nil => rfl
  | cons p pairs ih =>
    simp only [List.map_cons, List.mapM_cons, ih, decodeItemCatPair_pairObj]
    rfl

theorem strMap_mapM (m : List (String × String)) :
    (m.map (fun p => (p.1, Json.str p.2))).mapM
      (fun p => (decodeString p.2).map (fun v => (p.1, v))) = some m := by
  induction m with
  | nil => rfl
  | cons p m ih =>
    rw [List.map_cons, List.mapM_cons, ih]
    rfl

theorem decodeStringMap_strMapObj (m : List (String × String)) :
    decodeStringMap (strMapObj m) = some m := strMap_mapM m

theorem core_shape_a (cats : List String) (clean : List Char) (ct : Nat) :
    parseItemCategoriesCore (some (Json.arr (cats.map Json.str))) clean ct = some cats := by
  unfold parseItemCategoriesCore
  simp [decodeStringList_strs]

theorem core_shape_b (pairs : List (String × String)) (clean : List Char) (ct : Nat) :
    parseItemCategoriesCore (some (Json.arr (pairs.map pairObj))) clean ct =
      some (pairs.map (fun p => p.2)) := by
  cases pairs with
  | nil =>
    unfold parseItemCategoriesCore
    simp [decodeStringList_strs]
    rfl
  | cons p rest =>
    have h1 : decodeStringList (Json.arr ((p :: rest).map pairObj)) = none := by
      show ((p :: rest).map pairObj).mapM decodeString = none
      rw [List.map_cons, List.mapM_cons]
      rfl
    have h2 := decodeItemObjects_pairs (p :: rest)
    unfold parseItemCategoriesCore tryItemObjects
    simp only [Option.bind, h1, h2]
    simp

theorem foldl_collect_acc (f : Nat → Option String) (l : List Nat) (acc : List String) :
    l.foldl (fun acc i =>
      match f i with
      | some c => acc ++ [c]
      | none => acc) acc = acc ++ l.filterMap f := by
  induction l generalizing acc with
  | nil => simp
  | cons x l ih =>
    simp only [List.foldl_cons, List.filterMap_cons]
    cases hfx : f x with
    | none => simp [ih]
    | some c => simp [ih]

theorem probeNumbered_eq (m : List (String × String)) (n : Nat) :
    probeNumbered m n = (List.range n).filterMap (fun i => mapGet m (natToString (i + 1))) :=
  foldl_collect_acc _ _ []

theorem range_filterMap_get (cats : List String) (f : Nat → Option String)
    (h : ∀ i, (hi : i < cats.length) → f i = some (cats.get ⟨i, hi⟩)) :
    (List.range cats.length).filterMap f = cats := by
  induction cats generalizing f with
  | nil => rfl
  | cons c cats ih =>
    rw [List.length_cons, List.range_succ_eq_map, List.filterMap_cons]
    have h0 : f 0 = some c := h 0 (by simp)
    rw [h0, List.filterMap_map]
    have := ih (f ∘ Nat.succ) (fun i hi => h (i + 1) (by simpa using hi))
    rw [this]

theorem probeNumbered_all (m : List (String × String)) (cats : List String)
    (h : ∀ i, (hi : i < cats.length) → mapGet m (natToString (i + 1)) = some (cats.get ⟨i, hi⟩)) :
    probeNumbered m cats.length = cats := by
  rw [probeNumbered_eq, range_filterMap_get _ _ h]

theorem mapLen_pos (m : List (String × String)) (h : m ≠ []) : 0 < mapLen m := by
  unfold mapLen
  rw [List.length_pos]
  intro hd
  rw [List.dedup_eq_nil] at hd
  exact h (List.map_eq_nil.mp hd)

theorem core_shape_c (m : List (String × String)) (cats : List String) (clean : List Char)
    (hcat : mapGet m "categories" = none) (hm : m ≠ []) (hne : cats ≠ [])
    (h : ∀ i, (hi : i < cats.length) → mapGet m (natToString (i + 1)) = some (cats.get ⟨i, hi⟩)) :
    parseItemCategoriesCore (some (strMapObj m)) clean cats.length = some cats := by
  have h1 : decodeStringList (strMapObj m) = none := rfl
  have h2 : decodeItemObjects (strMapObj m) = none := rfl
  have h3 := decodeStringMap_strMapObj m
  have hprobe := probeNumbered_all m cats h
  have hlen : 0 < cats.length := List.length_pos.mpr hne
  unfold parseItemCategoriesCore tryItemObjects tryNumbered
  simp only [Option.bind, h1, h2, h3, hcat, Option.isSome_none, Bool.false_eq_true, if_false,
    mapLen_pos m hm, if_pos, hprobe]
  rw [if_pos hlen]

theorem core_shape_d (cats : List String) (clean : List Char) (ct : Nat) (hne : cats ≠ []) :
    parseItemCategoriesCore (some (Json.obj [("categories", Json.arr (cats.map Json.str))])) clean ct =
      some cats := by
  have h1 : decodeStringList (Json.obj [("categories", Json.arr (cats.map Json.str))]) = none := rfl
  have h2 : decodeItemObjects (Json.obj [("categories", Json.arr (cats.map Json.str))]) = none := rfl
  have h3 : decodeStringMap (Json.obj [("categories", Json.arr (cats.map Json.str))]) = none := rfl
  have h4 : decodeCategoriesObj (Json.obj [("categories", Json.arr (cats.map Json.str))]) =
      some cats := by
    show fieldOr [("categories", Json.arr (cats.map Json.str))] "categories" decodeStringList [] =
      some cats
    unfold fieldOr lookupLast
    simp [List.find?, decodeStringList_strs]
  have hlen : 0 < cats.length := List.length_pos.mpr hne
  unfold parseItemCategoriesCore tryItemObjects tryNumbered tryCategoriesField
  simp only [Option.bind, h1, h2, h3, h4]
  rw [if_pos hlen]

theorem freeform_eq (clean : List Char) :
    freeformCategories clean = (splitOnChar '\n' clean).flatMap lineTokens := by
  unfold freeformCategories
  have hstep : ∀ (acc : List String) (line : List Char),
      (let lineStr := trimChars line
       if lineStr ≠ [] then
         match findSub ['.'] line with
         | some idx =>
           if idx < line.length - 1 then acc ++ [String.mk (trimChars (line.drop (idx + 1)))]
           else acc ++ [String.mk lineStr]
         | none => acc ++ [String.mk lineStr]
       else acc) = acc ++ lineTokens line := by
    intro acc line
    unfold lineTokens
    by_cases h : trimChars line ≠ []
    · simp only [h, if_true]
      cases hf : findSub ['.'] line with
      | none => simp [h]
      | some idx =>
        by_cases hidx : idx < line.length - 1 <;> simp [h, hidx]
    · simp [h]
  have hgen : ∀ (lines : List (List Char)) (acc : List String),
      lines.foldl (fun acc line =>
        let lineStr := trimChars line
        if lineStr ≠ [] then
          match findSub ['.'] line with
          | some idx =>
            if idx < line.length - 1 then acc ++ [String.mk (trimChars (line.drop (idx + 1)))]
            else acc ++ [String.mk lineStr]
          | none => acc ++ [String.mk lineStr]
        else acc) acc = acc ++ lines.flatMap lineTokens := by
    intro lines
    induction lines with
    | nil => intro acc; simp
    | cons line lines ih =>
      intro acc
      rw [List.foldl_cons, hstep, ih, List.flatMap_cons, List.append_assoc]
  rw [hgen]
  rfl

theorem splitOnChar_sepfree (sep : Char) (l : List Char) (h : sep ∉ l) :
    splitOnChar sep l = [l] := by
  induction l with
  | nil => rfl
  | cons c rest ih =>
    have hc : ¬(c = sep) := fun hc => h (hc ▸ List.mem_cons_self c rest)
    have hrest : sep ∉ rest := fun hr => h (List.mem_cons_of_mem c hr)
    rw [splitOnChar, if_neg hc, ih hrest]

theorem splitOnChar_append (sep : Char) (line rest : List Char) (h : sep ∉ line) :
    splitOnChar sep (line ++ sep :: rest) = line :: splitOnChar sep rest := by
  induction line with
  | nil =>
    show splitOnChar sep (sep :: rest) = [] :: splitOnChar sep rest
    rw [splitOnChar, if_pos rfl]
  | cons c line ih =>
    have hc : ¬(c = sep) := fun hc => h (hc ▸ List.mem_cons_self c line)
    have hline : sep ∉ line := fun hr => h (List.mem_cons_of_mem c hr)
    show splitOnChar sep (c :: (line ++ sep :: rest)) = (c :: line) :: splitOnChar sep rest
    rw [splitOnChar, if_neg hc, ih hline]

theorem digit_facts (c : Char) (h : c ∈ digitChars) :
    isGoSpace c = false ∧ c ≠ '.' ∧ c ≠ '\n' := by
  fin_cases h <;> refine ⟨rfl, by decide, by decide⟩

theorem trimChars_ne_nil (l : List Char) (x : Char) (hx : x ∈ l) (hxs : isGoSpace x = false) :
    trimChars l ≠ [] := by
  intro hnil
  unfold trimChars at hnil
  rw [List.reverse_eq_nil_iff, List.dropWhile_eq_nil_iff] at hnil
  have hx0 : x ∈ l.takeWhile isGoSpace ++ l.dropWhile isGoSpace := by
    rw [List.takeWhile_append_dropWhile]
    exact hx
  have hx1 : x ∈ l.dropWhile isGoSpace := by
    rcases List.mem_append.mp hx0 with h1 | h1
    · have := List.mem_takeWhile_imp h1
      rw [hxs] at this
      cases this
    · exact h1
  have := hnil x (List.mem_reverse.mpr hx1)
  rw [hxs] at this
  cases this

theorem findSub_dot (ds tail : List Char) (h : ∀ d ∈ ds, d ≠ '.') :
    findSub ['.'] (ds ++ '.' :: tail) = some ds.length := by
  induction ds with
  | nil =>
    show findSub ['.'] ('.' :: tail) = some 0
    rw [findSub]
    rw [if_pos]
    show List.isPrefixOf ['.'] ('.' :: tail) = true
    simp [List.isPrefixOf]
  | cons d ds ih =>
    have hd : d ≠ '.' := h d (List.mem_cons_self d ds)
    show findSub ['.'] (d :: (ds ++ '.' :: tail)) = some (ds.length + 1)
    rw [findSub]
    rw [if_neg, ih (fun x hx => h x (List.mem_cons_of_mem d hx))]
    · rfl
    · show ¬(List.isPrefixOf ['.'] (d :: (ds ++ '.' :: tail)) = true)
      simp [List.isPrefixOf]
      intro hcon
      exact hd hcon.symm

theorem trimChars_cons_space (l : List Char) : trimChars (' ' :: l) = trimChars l := rfl

theorem decDigits_digits (n : Nat) : ∀ c ∈ decDigits n, c ∈ digitChars :=
  fun c hc => decDigitsAux_digits (n + 1) n c hc

theorem lineTokens_numberedLine (n : Nat) (c : String)
    (hc1 : trimChars c.data = c.data) (hc2 : c.data ≠ []) :
    lineTokens (numberedLine n c) = [c] := by
  obtain ⟨d, hd⟩ := List.exists_mem_of_ne_nil _ (decDigits_ne_nil n)
  obtain ⟨hds, hdot, hdn⟩ := digit_facts d (decDigits_digits n d hd)
  have hmem : d ∈ numberedLine n c := List.mem_append.mpr (Or.inl hd)
  have htrim := trimChars_ne_nil (numberedLine n c) d hmem hds
  have hfind : findSub ['.'] (numberedLine n c) = some (decDigits n).length :=
    findSub_dot _ _ (fun x hx => (digit_facts x (decDigits_digits n x hx)).2.1)
  have hclen : 0 < c.data.length := List.length_pos.mpr hc2
  have hlen : (numberedLine n c).length = (decDigits n).length + 2 + c.data.length := by
    unfold numberedLine
    simp only [List.length_append, List.length_cons]
    omega
  have hidx : (decDigits n).length < (numberedLine n c).length - 1 := by omega
  have hdrop : (numberedLine n c).drop ((decDigits n).length + 1) = ' ' :: c.data := by
    show (decDigits n ++ '.' :: ' ' :: c.data).drop ((decDigits n).length + 1) = ' ' :: c.data
    have h1 : (decDigits n ++ '.' :: ' ' :: c.data).drop (decDigits n).length =
        '.' :: ' ' :: c.data := List.drop_left _ _
    have h2 : ((decDigits n ++ '.' :: ' ' :: c.data).drop (decDigits n).length).drop 1 =
        (decDigits n ++ '.' :: ' ' :: c.data).drop ((decDigits n).length + 1) := by
      rw [List.drop_drop]
    rw [← h2, h1]
    rfl
  unfold lineTokens
  simp only [htrim, if_true, hfind, hidx, if_pos, ne_eq, not_false_eq_true]
  rw [hdrop, trimChars_cons_space, hc1]

theorem freeform_numbered (k : Nat) (cs : List String) (hne : cs ≠ [])
    (hall : ∀ c ∈ cs, trimChars c.data = c.data ∧ c.data ≠ [] ∧ '\n' ∉ c.data) :
    freeformCategories (numberedLinesFrom k cs) = cs := by
  induction cs generalizing k with
  | nil => exact absurd rfl hne
  | cons c rest ih =>
    obtain ⟨hc1, hc2, hc3⟩ := hall c (List.mem_cons_self c rest)
    have hnl : '\n' ∉ numberedLine k c := by
      intro hmem
      rcases List.mem_append.mp hmem with h | h
      · exact (digit_facts _ (decDigits_digits k _ h)).2.2 rfl
      · simp only [List.mem_cons] at h
        rcases h with h | h | h
        · cases h
        · cases h
        · exact hc3 h
    cases rest with
    | nil =>
      have hone : numberedLinesFrom k [c] = numberedLine k c := rfl
      rw [hone, freeform_eq, splitOnChar_sepfree _ _ hnl]
      simp only [List.flatMap_cons, List.flatMap_nil, List.append_nil]
      exact lineTokens_numberedLine k c hc1 hc2
    | cons c2 rest2 =>
      have hstep : numberedLinesFrom k (c :: c2 :: rest2) =
          numberedLine k c ++ '\n' :: numberedLinesFrom (k + 1) (c2 :: rest2) := rfl
      rw [hstep, freeform_eq, splitOnChar_append _ _ _ hnl]
      rw [List.flatMap_cons, lineTokens_numberedLine k c hc1 hc2]
      have hrest2 : freeformCategories (numberedLinesFrom (k + 1) (c2 :: rest2)) = c2 :: rest2 :=
        ih (k + 1) (by simp) (fun x hx => hall x (List.mem_cons_of_mem c hx))
      rw [freeform_eq] at hrest2
      rw [hrest2]
      rfl

theorem core_shape_e (cats : List String) (ct : Nat) (hne : cats ≠ [])
    (hall : ∀ c ∈ cats, trimChars c.data = c.data ∧ c.data ≠ [] ∧ '\n' ∉ c.data) :
    parseItemCategoriesCore none (numberedLinesFrom 1 cats) ct = some cats := by
  have hfree := freeform_numbered 1 cats hne hall
  have hlen : 0 < cats.length := List.length_pos.mpr hne
  unfold parseItemCategoriesCore tryItemObjects tryNumbered tryCategoriesField
  simp only [Option.none_bind]
  rw [hfree, if_pos hlen]

theorem parseReceiptJSON_id (now : Nat) (pd : String → Option Nat) (t rid : String) (r : Receipt)
    (h : parseReceiptJSON now pd t rid = some r) : r.id = rid := by
  unfold parseReceiptJSON at h
  simp only [] at h
  cases hj : jsonParse (String.mk (trimChars (cleanFences t.data))) with
  | none => rw [hj] at h; cases h
  | some j =>
    rw [hj] at h
    simp only [] at h
    cases hd : decodeReceiptData j with
    | none => rw [hd] at h; cases h
    | some rd =>
      rw [hd, Option.map_some'] at h
      cases h
      rfl

theorem categorize_preserves_id (f : String → Except String AIResult) (r : Receipt) :
    ((categorizeReceiptItems f r).1).id = r.id := by
  unfold categorizeReceiptItems
  split
  · rfl
  · split
    · rfl
    · split
      · rfl
      · rfl

theorem storeFind_append_self (s : List (String × Receipt)) (k : String) (r : Receipt)
    (h : storeFind s k = none) : storeFind (s ++ [(k, r)]) k = some r := by
  unfold storeFind at *
  rw [List.find?_append]
  have hn : s.find? (fun p => p.1 == k) = none := by
    cases hf : s.find? (fun p => p.1 == k) with
    | none => rfl
    | some p => rw [hf] at h; cases h
  rw [hn]
  simp [List.find?]

theorem storeFilter_one (s : List (String × Receipt)) (k : String) (r : Receipt)
    (h : storeFind s k = none) :
    ((s ++ [(k, r)]).filter (fun p => p.1 == k)).length = 1 := by
  have hn : s.find? (fun p => p.1 == k) = none := by
    unfold storeFind at h
    cases hf : s.find? (fun p => p.1 == k) with
    | none => rfl
    | some p => rw [hf] at h; cases h
  have hfil : s.filter (fun p => p.1 == k) = [] := by
    rw [List.filter_eq_nil_iff]
    intro p hp
    have := List.find?_eq_none.mp hn p hp
    simpa using this
  rw [List.filter_append, hfil]
  simp [List.filter]

theorem processAfterText_hit {σ : Type} (env : Env) (ops : RepoOps σ) (store : σ)
    (cache : List (String × String)) (evs : List Event) (b : List Nat) (t : String) (r : Receipt)
    (h : ops.findByID store (generateReceiptID b) = some r) :
    processAfterText env ops store cache evs b t =
      (Except.ok r, store, cache, evs ++ [Event.repoFindByID]) := by
  unfold processAfterText
  simp only [h]

theorem afterText_storeOps_ok (env : Env) (s0 : List (String × Receipt))
    (cache : List (String × String)) (evs : List Event) (b : List Nat) (t : String)
    (r1 : Receipt) (s1 : List (String × Receipt)) (c1 : List (String × String)) (e1 : List Event)
    (h0 : storeFind s0 (generateReceiptID b) = none)
    (h : processAfterText env storeOps s0 cache evs b t = (Except.ok r1, s1, c1, e1)) :
    r1.id = generateReceiptID b ∧ s1 = s0 ++ [(generateReceiptID b, r1)] ∧ c1 = cache := by
  unfold processAfterText at h
  simp only [] at h
  rw [show storeOps.findByID s0 (generateReceiptID b) = none from h0] at h
  cases hp : parseReceiptJSON env.now env.parseDate t (generateReceiptID b) with
  | none =>
    rw [hp] at h
    cases h
  | some receipt =>
    rw [hp] at h
    simp only [] at h
    have hid : ((categorizeReceiptItems env.aiCategorize receipt).1).id = generateReceiptID b := by
      rw [categorize_preserves_id]
      exact parseReceiptJSON_id _ _ _ _ _ hp
    have hcreate : storeOps.create s0 (categorizeReceiptItems env.aiCategorize receipt).1 =
        Except.ok (s0 ++ [(generateReceiptID b, (categorizeReceiptItems env.aiCategorize receipt).1)]) := by
      show (match storeFind s0 ((categorizeReceiptItems env.aiCategorize receipt).1).id with
        | some _ => Except.error "duplicate key"
        | none => Except.ok (s0 ++ [(((categorizeReceiptItems env.aiCategorize receipt).1).id,
            (categorizeReceiptItems env.aiCategorize receipt).1)])) = _
      rw [hid, h0]
    rw [hcreate] at h
    cases h
    exact ⟨hid, rfl, rfl⟩

theorem cacheSetFn_cons_ne (p : String × String) (c : List (String × String)) (k v : String)
    (hp : (p.1 == k) = false) : cacheSetFn (p :: c) k v = p :: cacheSetFn c k v := by
  unfold cacheSetFn
  by_cases h : c.any (fun q => q.1 == k)
  · rw [if_pos, if_pos h]
    · rw [List.map_cons]
      rw [show (if (p.1 == k) = true then (k, v) else p) = p from by rw [hp]; simp]
    · rw [List.any_cons, hp]
      simpa using h
  · rw [if_neg, if_neg h]
    · rfl
    · rw [List.any_cons, hp]
      simpa using h

theorem cacheGetFn_set (c : List (String × String)) (k v : String) :
    cacheGetFn (cacheSetFn c k v) k = some v := by
  induction c with
  | nil =>
    simp [cacheSetFn, cacheGetFn, List.find?]
  | cons p rest ih =>
    by_cases hp : (p.1 == k) = true
    · have hk : p.1 = k := by simpa using hp
      have hany : (p :: rest).any (fun q => q.1 == k) = true := by
        rw [List.any_cons, hp]
        rfl
      unfold cacheSetFn
      rw [if_pos hany, List.map_cons, if_pos hp]
      unfold cacheGetFn
      rw [List.find?_cons_of_pos]
      · rfl
      · simp
    · have hpf : (p.1 == k) = false := by simpa using hp
      rw [cacheSetFn_cons_ne p rest k v hpf]
      unfold cacheGetFn at *
      rw [List.find?_cons_of_neg]
      · exact ih
      · simp only [hpf]
        exact fun h => by cases h

theorem string_ne_empty_of_len (v : String) (h : v.length > 0) : ¬(v = "") := by
  intro he
  rw [he] at h
  simp at h

/-- Second call, no cache configured, AI succeeds, store already has the id. -/
theorem process_hit_nocache (env : Env) (s1 : List (String × Receipt))
    (c1 : List (String × String)) (b : List Nat) (r1 : Receipt) (res : AIResult)
    (hhit : storeFind s1 (generateReceiptID b) = some r1)
    (hai : env.aiRecognize b = Except.ok res) :
    ProcessReceiptImage env storeOps false s1 c1 b =
      (Except.ok r1, s1, c1, [Event.aiRecognize, Event.repoFindByID]) := by
  unfold ProcessReceiptImage
  simp only [Bool.false_eq_true, if_false, reduceIte, List.nil_append, List.append_nil, hai]
  rw [processAfterText_hit env storeOps s1 c1 [Event.aiRecognize] b res.correctedText r1 hhit]
  rfl

/-- Second call, cache configured but missing the key, AI succeeds. -/
theorem process_hit_cachemiss (env : Env) (s1 : List (String × Receipt))
    (c1 : List (String × String)) (b : List Nat) (r1 : Receipt) (res : AIResult)
    (hhit : storeFind s1 (generateReceiptID b) = some r1)
    (hv : cacheGetFn c1 (generateCacheKey "receipt" b) = none)
    (hai : env.aiRecognize b = Except.ok res) :
    ProcessReceiptImage env storeOps true s1 c1 b =
      (Except.ok r1, s1, cacheSetFn c1 (generateCacheKey "receipt" b) res.correctedText,
        [Event.cacheGet, Event.aiRecognize, Event.cacheSet, Event.repoFindByID]) := by
  unfold ProcessReceiptImage
  simp only [reduceIte, hv, hai]
  rw [processAfterText_hit env storeOps s1
    (cacheSetFn c1 (generateCacheKey "receipt" b) res.correctedText)
    ([Event.cacheGet] ++ [Event.aiRecognize] ++ [Event.cacheSet]) b res.correctedText r1 hhit]
  rfl

/-- Second call, cached non-empty text, store already has the id. -/
theorem process_hit_cached (env : Env) (s1 : List (String × Receipt))
    (c1 : List (String × String)) (b : List Nat) (r1 : Receipt) (v : String)
    (hhit : storeFind s1 (generateReceiptID b) = some r1)
    (hv : cacheGetFn c1 (generateCacheKey "receipt" b) = some v)
    (hlen : v.length > 0) :
    ProcessReceiptImage env storeOps true s1 c1 b =
      (Except.ok r1, s1, c1, [Event.cacheGet, Event.repoFindByID]) := by
  unfold ProcessReceiptImage
  simp only [reduceIte, hv]
  rw [if_pos hlen, if_neg (string_ne_empty_of_len v hlen)]
  rw [processAfterText_hit env storeOps s1 c1 [Event.cacheGet] b v r1 hhit]
  rfl

/-- Second call, cached empty text (recognizer returned ""), AI succeeds. -/
theorem process_hit_cachedempty (env : Env) (s1 : List (String × Receipt))
    (c1 : List (String × String)) (b : List Nat) (r1 : Receipt) (v : String) (res : AIResult)
    (hhit : storeFind s1 (generateReceiptID b) = some r1)
    (hv : cacheGetFn c1 (generateCacheKey "receipt" b) = some v)
    (hlen : ¬(v.length > 0))
    (hai : env.aiRecognize b = Except.ok res) :
    ProcessReceiptImage env storeOps true s1 c1 b =
      (Except.ok r1, s1, cacheSetFn c1 (generateCacheKey "receipt" b) res.correctedText,
        [Event.cacheGet, Event.aiRecognize, Event.cacheSet, Event.repoFindByID]) := by
  unfold ProcessReceiptImage
  simp only [reduceIte, hv, hai]
  rw [if_neg hlen]
  simp only [reduceIte, hai]
  rw [processAfterText_hit env storeOps s1
    (cacheSetFn c1 (generateCacheKey "receipt" b) res.correctedText)
    ([Event.cacheGet] ++ [Event.aiRecognize] ++ [Event.cacheSet]) b res.correctedText r1 hhit]
  rfl


/-! ## The claims -/

/-- C1: idempotent ingestion over the repository model: a first successful
`ProcessReceiptImage` call on a fresh id stores exactly one record under
`generateReceiptID b` and returns it with that id, and a second call with the
same bytes returns the very same receipt, leaves the store unchanged and
performs no second `Create` (no `repoCreate` event). -/
theorem process_receipt_idempotent (env : Env) (hasCache : Bool)
    (s0 : List (String × Receipt)) (c0 : List (String × String)) (b : List Nat)
    (r1 : Receipt) (s1 : List (String × Receipt)) (c1 : List (String × String))
    (e1 : List Event)
    (h0 : storeFind s0 (generateReceiptID b) = none)
    (h1 : ProcessReceiptImage env storeOps hasCache s0 c0 b = (Except.ok r1, s1, c1, e1)) :
    r1.id = generateReceiptID b ∧
    storeFind s1 (generateReceiptID b) = some r1 ∧
    (s1.filter (fun p => p.1 == generateReceiptID b)).length = 1 ∧
    ∃ c2 e2,
      ProcessReceiptImage env storeOps hasCache s1 c1 b = (Except.ok r1, s1, c2, e2) ∧
      Event.repoCreate ∉ e2 := by
  cases hasCache with
  | false =>
    unfold ProcessReceiptImage at h1
    simp only [Bool.false_eq_true, if_false, reduceIte, List.nil_append, List.append_nil] at h1
    cases hai : env.aiRecognize b with
    | error e =>
      rw [hai] at h1
      simp at h1
    | ok res =>
      rw [hai] at h1
      simp only [] at h1
      obtain ⟨hid, hs1, _⟩ :=
        afterText_storeOps_ok env s0 c0 [Event.aiRecognize] b res.correctedText r1 s1 c1 e1 h0 h1
      have hhit : storeFind s1 (generateReceiptID b) = some r1 := by
        rw [hs1]
        exact storeFind_append_self s0 _ r1 h0
      refine ⟨hid, hhit, ?_, ?_⟩
      · rw [hs1]
        exact storeFilter_one s0 _ r1 h0
      · exact ⟨c1, [Event.aiRecognize, Event.repoFindByID],
          process_hit_nocache env s1 c1 b r1 res hhit hai, by decide⟩
  | true =>
    unfold ProcessReceiptImage at h1
    simp only [reduceIte] at h1
    cases hv0 : cacheGetFn c0 (generateCacheKey "receipt" b) with
    | none =>
      rw [hv0] at h1
      simp only [reduceIte] at h1
      cases hai : env.aiRecognize b with
      | error e =>
        rw [hai] at h1
        simp at h1
      | ok res =>
        rw [hai] at h1
        simp only [] at h1
        obtain ⟨hid, hs1, hc1⟩ :=
          afterText_storeOps_ok env s0 (cacheSetFn c0 (generateCacheKey "receipt" b) res.correctedText)
            ([Event.cacheGet] ++ [Event.aiRecognize] ++ [Event.cacheSet]) b res.correctedText
            r1 s1 c1 e1 h0 h1
        have hhit : storeFind s1 (generateReceiptID b) = some r1 := by
          rw [hs1]
          exact storeFind_append_self s0 _ r1 h0
        have hget : cacheGetFn c1 (generateCacheKey "receipt" b) = some res.correctedText := by
          rw [hc1]
          exact cacheGetFn_set c0 _ _
        refine ⟨hid, hhit, ?_, ?_⟩
        · rw [hs1]
          exact storeFilter_one s0 _ r1 h0
        · by_cases hL : res.correctedText.length > 0
          · exact ⟨c1, [Event.cacheGet, Event.repoFindByID],
              process_hit_cached env s1 c1 b r1 res.correctedText hhit hget hL, by decide⟩
          · exact ⟨cacheSetFn c1 (generateCacheKey "receipt" b) res.correctedText,
              [Event.cacheGet, Event.aiRecognize, Event.cacheSet, Event.repoFindByID],
              process_hit_cachedempty env s1 c1 b r1 res.correctedText res hhit hget hL hai,
              by decide⟩
    | some v0 =>
      rw [hv0] at h1
      simp only [] at h1
      by_cases hL0 : v0.length > 0
      · rw [if_pos hL0] at h1
        rw [if_neg (string_ne_empty_of_len v0 hL0)] at h1
        obtain ⟨hid, hs1, hc1⟩ :=
          afterText_storeOps_ok env s0 c0 [Event.cacheGet] b v0 r1 s1 c1 e1 h0 h1
        have hhit : storeFind s1 (generateReceiptID b) = some r1 := by
          rw [hs1]
          exact storeFind_append_self s0 _ r1 h0
        have hget : cacheGetFn c1 (generateCacheKey "receipt" b) = some v0 := by
          rw [hc1]
          exact hv0
        refine ⟨hid, hhit, ?_, ?_⟩
        · rw [hs1]
          exact storeFilter_one s0 _ r1 h0
        · exact ⟨c1, [Event.cacheGet, Event.repoFindByID],
            process_hit_cached env s1 c1 b r1 v0 hhit hget hL0, by decide⟩
      · rw [if_neg hL0] at h1
        simp only [reduceIte] at h1
        cases hai : env.aiRecognize b with
        | error e =>
          rw [hai] at h1
          simp at h1
        | ok res =>
          rw [hai] at h1
          simp only [] at h1
          obtain ⟨hid, hs1, hc1⟩ :=
            afterText_storeOps_ok env s0
              (cacheSetFn c0 (generateCacheKey "receipt" b) res.correctedText)
              ([Event.cacheGet] ++ [Event.aiRecognize] ++ [Event.cacheSet]) b res.correctedText
              r1 s1 c1 e1 h0 h1
          have hhit : storeFind s1 (generateReceiptID b) = some r1 := by
            rw [hs1]
            exact storeFind_append_self s0 _ r1 h0
          have hget : cacheGetFn c1 (generateCacheKey "receipt" b) = some res.correctedText := by
            rw [hc1]
            exact cacheGetFn_set c0 _ _
          refine ⟨hid, hhit, ?_, ?_⟩
          · rw [hs1]
            exact storeFilter_one s0 _ r1 h0
          · by_cases hL : res.correctedText.length > 0
            · exact ⟨c1, [Event.cacheGet, Event.repoFindByID],
                process_hit_cached env s1 c1 b r1 res.correctedText hhit hget hL, by decide⟩
            · exact ⟨cacheSetFn c1 (generateCacheKey "receipt" b) res.correctedText,
                [Event.cacheGet, Event.aiRecognize, Event.cacheSet, Event.repoFindByID],
                process_hit_cachedempty env s1 c1 b r1 res.correctedText res hhit hget hL hai,
                by decide⟩

/-- Concrete instance discharging the hypotheses of the idempotence theorem:
the two-call run over `envA` starting from an empty store and cache. -/
theorem process_receipt_idempotent_witness :
    (storeFind [] (generateReceiptID [1, 2, 3]) = none) ∧
    (ProcessReceiptImage envA storeOps true [] [] [1, 2, 3] =
      (Except.ok receiptA, storeA, cacheA, evsFullA)) ∧
    (receiptA.id = generateReceiptID [1, 2, 3] ∧
     storeFind storeA (generateReceiptID [1, 2, 3]) = some receiptA ∧
     (storeA.filter (fun p => p.1 == generateReceiptID [1, 2, 3])).length = 1 ∧
     ∃ c2 e2, ProcessReceiptImage envA storeOps true storeA cacheA [1, 2, 3] =
        (Except.ok receiptA, storeA, c2, e2) ∧ Event.repoCreate ∉ e2) :=
  ⟨by decide, by decide,
    process_receipt_idempotent envA true [] [] [1, 2, 3] receiptA storeA cacheA evsFullA
      (by decide) (by decide)⟩

/-- C2 (amended): when decoding succeeds and the decoded item-sum is positive,
the extracted receipt's `totalAmount` equals `Σ price*quantity` over ALL
decoded items (the AI-reported total is overwritten); the same equality over
the materialized `receipt.items` additionally requires every decoded item
name to be non-empty, because empty-named items are dropped from `items` but
still counted into `calculatedTotal`.  The invariant is stated at the
36-character receipt ids the pipeline produces (Go's `receiptID[:27]` in the
item loop requires at least 27 bytes). -/
theorem extraction_total_invariant (now : Nat) (pd : String → Option Nat) (s rid : String)
    (rd : ReceiptData) (h36 : rid.length = 36)
    (hrd : (jsonParse (String.mk (trimChars (cleanFences s.data)))).bind decodeReceiptData =
      some rd)
    (hpos : (rd.items.map (fun it => it.price * it.quantity)).sum > 0) :
    ∃ r, parseReceiptJSON now pd s rid = some r ∧
      r.totalAmount = (rd.items.map (fun it => it.price * it.quantity)).sum ∧
      ((∀ it ∈ rd.items, it.name ≠ "") →
        r.totalAmount = (r.items.map (fun it => it.price * it.quantity)).sum) := by
  cases hj : jsonParse (String.mk (trimChars (cleanFences s.data))) with
  | none =>
    rw [hj] at hrd
    cases hrd
  | some j =>
    rw [hj] at hrd
    simp only [Option.some_bind] at hrd
    refine ⟨buildReceipt now pd rd rid, parseReceiptJSON_some now pd s rid j rd hj hrd, ?_, ?_⟩
    · exact (buildReceipt_total now pd rd rid).1 hpos
    · intro hnames
      exact ((buildReceipt_total now pd rd rid).1 hpos).trans
        (buildReceipt_items_sum now pd rd rid hnames).symm

/-- C2 counterexample: at the 36-character receipt id `ridA`, a decoded
empty-named item contributes its `price*quantity` to `calculatedTotal` but is
dropped from `items`, so this extracted receipt has one item, item-sum 50,
yet `totalAmount` 150 - the spec's invariant over the receipt's own items
fails. -/
theorem extraction_total_counterexample :
    ridA.length = 36 ∧
    parseReceiptJSON 0 pdNone totalCounterJSON ridA = some receiptC2 ∧
    receiptC2.items.length = 1 ∧
    (receiptC2.items.map (fun it => it.price * it.quantity)).sum = 50 ∧
    (receiptC2.items.map (fun it => it.price * it.quantity)).sum > 0 ∧
    receiptC2.totalAmount = 150 ∧
    receiptC2.totalAmount ≠ (receiptC2.items.map (fun it => it.price * it.quantity)).sum := by
  refine ⟨by decide, by decide, by decide, by decide, by decide, by decide, by decide⟩

/-- Concrete instance discharging the hypotheses of the amended extraction
total theorem, on the all-names-non-empty response `jsonTextA`. -/
theorem extraction_total_invariant_witness :
    (ridA.length = 36) ∧
    ((jsonParse (String.mk (trimChars (cleanFences jsonTextA.data)))).bind decodeReceiptData =
      some rdA) ∧
    ((rdA.items.map (fun it => it.price * it.quantity)).sum > 0) ∧
    (∃ r, parseReceiptJSON 0 pdNone jsonTextA ridA = some r ∧
      r.totalAmount = (rdA.items.map (fun it => it.price * it.quantity)).sum ∧
      ((∀ it ∈ rdA.items, it.name ≠ "") →
        r.totalAmount = (r.items.map (fun it => it.price * it.quantity)).sum)) :=
  ⟨by decide, by decide, by decide,
    extraction_total_invariant 0 pdNone jsonTextA ridA rdA (by decide) (by decide) (by decide)⟩

/-- C3 (code bug): with a failing classifier, ingestion still succeeds and no
error is surfaced, but the persisted items keep the zero-value category "" -
they are NOT defaulted to その他, because `categorizeReceiptItems` returns on
a classification error before its defaulting loop runs. -/
theorem classification_failure_keeps_empty_category :
    ProcessReceiptImage envA storeOps true [] [] [1, 2, 3] =
      (Except.ok receiptA, storeA, cacheA, evsFullA) ∧
    Event.aiCategorize ∈ evsFullA ∧
    receiptA.items ≠ [] ∧
    (∀ it ∈ receiptA.items, it.category = "") ∧
    (∀ it ∈ receiptA.items, it.category ≠ "その他") := by
  refine ⟨by decide, by decide, by decide, by decide, by decide⟩

/-- C4 (amended): a `Create` rejection is not treated as already ingested:
after a `FindByID` miss and a successful parse, any error from the
repository's `Create` - a duplicate key included - is returned to the caller
as the hard error `failed to save receipt: ...`, with no re-fetch. -/
theorem create_error_is_hard_error {σ : Type} (env : Env) (ops : RepoOps σ) (store : σ)
    (cache : List (String × String)) (evs : List Event) (b : List Nat) (t : String)
    (receipt : Receipt) (e : String)
    (hmiss : ops.findByID store (generateReceiptID b) = none)
    (hparse : parseReceiptJSON env.now env.parseDate t (generateReceiptID b) = some receipt)
    (hcreate : ops.create store (categorizeReceiptItems env.aiCategorize receipt).1 =
      Except.error e) :
    processAfterText env ops store cache evs b t =
      (Except.error ("failed to save receipt: " ++ e), store, cache,
        (evs ++ [Event.repoFindByID]) ++ (categorizeReceiptItems env.aiCategorize receipt).2 ++
          [Event.repoCreate]) := by
  unfold processAfterText
  simp only [hmiss, hparse, hcreate]

/-- C4 counterexample: in the duplicate-key race window (`racyOps`: the row
appears between `FindByID` and `Create`), the pipeline returns the hard
error, not the existing stored record. -/
theorem duplicate_key_counterexample :
    ProcessReceiptImage envA racyOps true () [] [1, 2, 3] =
      (Except.error "failed to save receipt: Duplicate entry", (), cacheA, evsFullA) := by
  decide

/-- Concrete instance discharging the hypotheses of the create-error theorem
over the race-window repository `racyOps`. -/
theorem create_error_is_hard_error_witness :
    (racyOps.findByID () (generateReceiptID [1, 2, 3]) = none) ∧
    (parseReceiptJSON envA.now envA.parseDate jsonTextA (generateReceiptID [1, 2, 3]) =
      some receiptA) ∧
    (racyOps.create () (categorizeReceiptItems envA.aiCategorize receiptA).1 =
      Except.error "Duplicate entry") ∧
    processAfterText envA racyOps () [] [] [1, 2, 3] jsonTextA =
      (Except.error ("failed to save receipt: " ++ "Duplicate entry"), (), [],
        ([] ++ [Event.repoFindByID]) ++
          (categorizeReceiptItems envA.aiCategorize receiptA).2 ++ [Event.repoCreate]) :=
  ⟨by decide, by decide, by decide,
    create_error_is_hard_error envA racyOps () [] [] [1, 2, 3] jsonTextA receiptA
      "Duplicate entry" (by decide) (by decide) (by decide)⟩

/-- C5: `generateReceiptID` is a pure function of the bytes (deterministic),
equals the UUID-style formatting of the first 16 bytes of the SHA-256 digest,
and is exactly 36 characters in the 8-4-4-4-12 hyphen layout with every
non-hyphen character a lowercase hex digit. -/
theorem receipt_id_spec (b : List Nat) (hb : ∀ x ∈ b, x < 256) :
    generateReceiptID b = generateReceiptID b ∧
    generateReceiptID b = uuidFromBytes ((sha256 b).take 16) ∧
    (generateReceiptID b).length = 36 ∧
    ∃ g1 g2 g3 g4 g5 : List Char,
      (generateReceiptID b).data = g1 ++ '-' :: (g2 ++ '-' :: (g3 ++ '-' :: (g4 ++ '-' :: g5))) ∧
      g1.length = 8 ∧ g2.length = 4 ∧ g3.length = 4 ∧ g4.length = 4 ∧ g5.length = 12 ∧
      (∀ c, c ∈ g1 ++ g2 ++ g3 ++ g4 ++ g5 → c ∈ hexChars) := by
  have hlen := sha256_length b
  refine ⟨rfl, ?_, ?_, ?_⟩
  · unfold generateReceiptID uuidFromBytes
    rw [List.take_take, List.drop_take, List.drop_take, List.drop_take, List.drop_take,
      List.take_take, List.take_take, List.take_take, List.take_take]
    norm_num
  · show (bytesHex ((sha256 b).take 4) ++ '-' :: _).length = 36
    simp only [List.length_append, List.length_cons, bytesHex_length, List.length_take,
      List.length_drop, hlen]
    norm_num
  · refine ⟨bytesHex ((sha256 b).take 4), bytesHex (((sha256 b).drop 4).take 2),
      bytesHex (((sha256 b).drop 6).take 2), bytesHex (((sha256 b).drop 8).take 2),
      bytesHex (((sha256 b).drop 10).take 6), rfl, ?_, ?_, ?_, ?_, ?_, ?_⟩
    · rw [bytesHex_length, List.length_take, hlen]
      norm_num
    · rw [bytesHex_length, List.length_take, List.length_drop, hlen]
      norm_num
    · rw [bytesHex_length, List.length_take, List.length_drop, hlen]
      norm_num
    · rw [bytesHex_length, List.length_take, List.length_drop, hlen]
      norm_num
    · rw [bytesHex_length, List.length_take, List.length_drop, hlen]
      norm_num
    · intro c hc
      simp only [List.mem_append] at hc
      rcases hc with ((((h | h) | h) | h) | h) <;> exact bytesHex_mem _ c h

/-- Concrete instance discharging the byte-range hypothesis of the id-shape
theorem at the bytes `[1, 2, 3]`. -/
theorem receipt_id_spec_witness :
    (∀ x ∈ [1, 2, 3], x < 256) ∧
    (generateReceiptID [1, 2, 3] = generateReceiptID [1, 2, 3] ∧
     generateReceiptID [1, 2, 3] = uuidFromBytes ((sha256 [1, 2, 3]).take 16) ∧
     (generateReceiptID [1, 2, 3]).length = 36 ∧
     ∃ g1 g2 g3 g4 g5 : List Char,
       (generateReceiptID [1, 2, 3]).data =
         g1 ++ '-' :: (g2 ++ '-' :: (g3 ++ '-' :: (g4 ++ '-' :: g5))) ∧
       g1.length = 8 ∧ g2.length = 4 ∧ g3.length = 4 ∧ g4.length = 4 ∧ g5.length = 12 ∧
       (∀ c, c ∈ g1 ++ g2 ++ g3 ++ g4 ++ g5 → c ∈ hexChars)) :=
  ⟨by decide, receipt_id_spec [1, 2, 3] (by decide)⟩

/-- C6: exactly the decoded items with a non-empty name are materialized, in
order, with name, quantity and price copied verbatim; the item id is
`receiptID[:27] ++ "-" ++ zeroPad8 i` over the decoded index `i`, of length
36 when `i < 10^8`, and of length at most 50 for every Go `int` index. -/
theorem item_materialization (now : Nat) (rid : String) (items : List ItemData) (i : Nat)
    (h36 : rid.length = 36) :
    materializeItemsFrom now rid 0 items =
      ((List.enumFrom 0 items).filter (fun p => p.2.name ≠ "")).map (itemOfData now rid) ∧
    (materializeItemsFrom now rid 0 items).map (fun it => (it.name, it.quantity, it.price)) =
      (items.filter (fun it => it.name ≠ "")).map (fun it => (it.name, it.quantity, it.price)) ∧
    itemIDOf rid i = String.mk (rid.data.take 27) ++ "-" ++ zeroPad8 i ∧
    (i < 10 ^ 8 → (itemIDOf rid i).length = 36) ∧
    (i < 2 ^ 63 → (itemIDOf rid i).length ≤ 50) := by
  refine ⟨materializeItemsFrom_eq now rid items 0, materializeItemsFrom_fields now rid items 0,
    rfl, (itemIDOf_length rid i h36).1, (itemIDOf_length rid i h36).2⟩

/-- Concrete instance discharging the 36-character hypothesis of the item
materialization theorem, with an empty-named decoded item dropped. -/
theorem item_materialization_witness :
    (ridA.length = 36) ∧
    (materializeItemsFrom 0 ridA 0 [{ name := "", quantity := 1, price := 100 },
        { name := "a", quantity := 2, price := 50 }] =
      ((List.enumFrom 0 [{ name := "", quantity := 1, price := 100 },
          { name := "a", quantity := 2, price := 50 }]).filter
        (fun p => p.2.name ≠ "")).map (itemOfData 0 ridA) ∧
     (materializeItemsFrom 0 ridA 0 [{ name := "", quantity := 1, price := 100 },
        { name := "a", quantity := 2, price := 50 }]).map
          (fun it => (it.name, it.quantity, it.price)) =
      (([{ name := "", quantity := 1, price := 100 },
         { name := "a", quantity := 2, price := 50 }] : List ItemData).filter
        (fun it => it.name ≠ "")).map (fun it => (it.name, it.quantity, it.price)) ∧
     itemIDOf ridA 3 = String.mk (ridA.data.take 27) ++ "-" ++ zeroPad8 3 ∧
     (3 < 10 ^ 8 → (itemIDOf ridA 3).length = 36) ∧
     (3 < 2 ^ 63 → (itemIDOf ridA 3).length ≤ 50)) :=
  ⟨by decide,
    item_materialization 0 ridA [{ name := "", quantity := 1, price := 100 },
      { name := "a", quantity := 2, price := 50 }] 3 (by decide)⟩

/-- C7: the classifier-response parser tries the five response shapes in
source order - JSON string array, {item, category} object array,
numbered-key object probed at keys "1"..itemCount, `categories` field object,
freeform numbered lines - stopping at the first that succeeds, and on each
supported shape returns the categories in item order; the last five conjuncts
run concrete three-item (and two-item) instances of all five shapes through
`parseItemCategories` itself. -/
theorem classifier_parser_tolerance :
    (∀ (cats : List String) (clean : List Char) (ct : Nat),
      parseItemCategoriesCore (some (Json.arr (cats.map Json.str))) clean ct = some cats) ∧
    (∀ (pairs : List (String × String)) (clean : List Char) (ct : Nat),
      parseItemCategoriesCore (some (Json.arr (pairs.map pairObj))) clean ct =
        some (pairs.map (fun p => p.2))) ∧
    (∀ (m : List (String × String)) (cats : List String) (clean : List Char),
      mapGet m "categories" = none → m ≠ [] → cats ≠ [] →
      (∀ i, (hi : i < cats.length) → mapGet m (natToString (i + 1)) = some (cats.get ⟨i, hi⟩)) →
      parseItemCategoriesCore (some (strMapObj m)) clean cats.length = some cats) ∧
    (∀ (cats : List String) (clean : List Char) (ct : Nat), cats ≠ [] →
      parseItemCategoriesCore (some (Json.obj [("categories", Json.arr (cats.map Json.str))]))
        clean ct = some cats) ∧
    (∀ (cats : List String) (ct : Nat), cats ≠ [] →
      (∀ c ∈ cats, trimChars c.data = c.data ∧ c.data ≠ [] ∧ '\n' ∉ c.data) →
      parseItemCategoriesCore none (numberedLinesFrom 1 cats) ct = some cats) ∧
    (∀ (response : String) (ct : Nat),
      parseItemCategories response ct =
        parseItemCategoriesCore (jsonParse (String.mk (trimChars (cleanFences response.data))))
          (trimChars (cleanFences response.data)) ct) ∧
    parseItemCategories "[\"食費\", \"日用品\", \"医療費\"]" 3 = some ["食費", "日用品", "医療費"] ∧
    parseItemCategories "[\x7b\"item\": \"牛乳\", \"category\": \"食費\"\x7d, \x7b\"item\": \"シャンプー\", \"category\": \"日用品\"\x7d]" 2 = some ["食費", "日用品"] ∧
    parseItemCategories "\x7b\"1\": \"食費\", \"2\": \"日用品\", \"3\": \"医療費\"\x7d" 3 = some ["食費", "日用品", "医療費"] ∧
    parseItemCategories "\x7b\"categories\": [\"食費\", \"日用品\"]\x7d" 2 = some ["食費", "日用品"] ∧
    parseItemCategories "1. 食費\n2. 日用品\n3. 医療費" 3 = some ["食費", "日用品", "医療費"] := by
  refine ⟨core_shape_a, core_shape_b, ?_, ?_, ?_, fun _ _ => rfl, ?_, ?_, ?_, ?_, ?_⟩
  · exact fun m cats clean hcat hm hne h => core_shape_c m cats clean hcat hm hne h
  · exact fun cats clean ct hne => core_shape_d cats clean ct hne
  · exact fun cats ct hne hall => core_shape_e cats ct hne hall
  · decide
  · decide
  · decide
  · decide
  · decide

/-- C8: `GetCategorySummary` buckets every line item of every receipt by its
category (その他 substituted when empty) adding 1 to the count and
`price*quantity` to the total, and every expense entry with a non-empty
category by its category adding its amount, into the same map; the spec's
concrete example yields food 2/500, goods 1/500, transport 1/500. -/
theorem category_summary_correct :
    (∀ (receipts : List Receipt) (expenses : List ExpenseEntry) (c : String),
      summaryGet (GetCategorySummary receipts expenses) c =
        (if ((receipts.flatMap (fun r => r.items)).filter (fun it => itemCat it == c)).length +
            (expenses.filter (fun e => e.category == c && !(e.category == ""))).length = 0
         then none
         else some (CategorySummary.mk c
          ((((receipts.flatMap (fun r => r.items)).filter
              (fun it => itemCat it == c)).length : Int) +
            ((expenses.filter (fun e => e.category == c && !(e.category == ""))).length : Int))
          ((((receipts.flatMap (fun r => r.items)).filter (fun it => itemCat it == c)).map
              (fun it => it.price * it.quantity)).sum +
            ((expenses.filter (fun e => e.category == c && !(e.category == ""))).map
              (fun e => e.amount)).sum)))) ∧
    GetCategorySummary [rFood, rGoods] [expTransport] =
      [CategorySummary.mk "food" 2 500, CategorySummary.mk "goods" 1 500,
       CategorySummary.mk "transport" 1 500] := by
  refine ⟨fun receipts expenses c => category_summary_pointwise receipts expenses c, by decide⟩

/-- C9 (amended): the vision module's `RecognizeReceipt` rejects an empty
image before its AI call, but the household ingestion pipeline performs the
cache read and the AI recognition call even for empty input and succeeds on
it - the id is simply the hash of zero bytes. -/
theorem empty_input_handling :
    (∀ env : Env, RecognizeReceiptUC env [] = (Except.error "image data is empty", [])) ∧
    (ProcessReceiptImage envA storeOps true [] [] []).2.2.2 = evsFullA ∧
    Event.cacheGet ∈ evsFullA ∧ Event.aiRecognize ∈ evsFullA ∧
    Option.map (fun r => r.id) (ProcessReceiptImage envA storeOps true [] [] []).1.toOption =
      some (generateReceiptID []) := by
  refine ⟨fun env => rfl, by decide, by decide, by decide, by decide⟩

/-- C9 counterexample: on the empty byte slice the ingestion pipeline makes
external calls (cache get, AI recognize) and returns success, not a
client-side validation failure. -/
theorem empty_input_not_rejected :
    Event.cacheGet ∈ (ProcessReceiptImage envA storeOps true [] [] []).2.2.2 ∧
    Event.aiRecognize ∈ (ProcessReceiptImage envA storeOps true [] [] []).2.2.2 ∧
    (ProcessReceiptImage envA storeOps true [] [] []).1.toOption.isSome = true := by
  refine ⟨by decide, by decide, by decide⟩

/-- C10: extraction copies the decoded quantity and price verbatim and
performs no range validation, so a successfully extracted and persisted
receipt can contain an item with quantity 0 and negative price, for which
`ReceiptItem.IsValid` is false. -/
theorem extraction_no_range_validation :
    (∀ (now : Nat) (rid : String) (items : List ItemData) (i0 : Nat),
      (materializeItemsFrom now rid i0 items).map (fun it => (it.name, it.quantity, it.price)) =
        (items.filter (fun it => it.name ≠ "")).map (fun it => (it.name, it.quantity, it.price))) ∧
    ProcessReceiptImage envB storeOps true [] [] [1, 2, 3] =
      (Except.ok receiptB, [(ridA, receiptB)], cacheB, evsFullA) ∧
    receiptB.items.map (fun it => (it.quantity, it.price)) = [(0, -5), (1, 300)] ∧
    (∃ it ∈ receiptB.items, ¬ it.IsValid) := by
  refine ⟨fun now rid items i0 => materializeItemsFrom_fields now rid items i0,
    by decide, by decide, by decide⟩

end VisionApp
